import Mathlib

/-!
Verification of the ticket-store core of the `tkr` repository
(`src/apps/active/cli/ticketr/core/src/ticket.rs`) against its
natural-language specification.

The embedding models strings as `List Char` (`Str`), the filesystem as an
ordered list of entries (files with content, directories), and translates
each store operation from the Rust source.  The YAML layer used by the
source through the external `serde_yaml` crate is modelled from the spec as
a concrete line-oriented mapping codec (`yamlLines` / `yamlParse`); the
document framing (`---` block separators, `splitn(3, "---")`) is taken
directly from `save_ticket` / `load_ticket` in the source.
-/

namespace Tkr

/-- Strings of the model: lists of characters, so that concatenation and
splitting have good definitional behaviour. -/
abbrev Str := List Char

/-- A note attached to a ticket (`struct Note` in ticket.rs); timestamps are
modelled as natural numbers. -/
structure Note where
  timestamp : Nat
  content : Str
deriving DecidableEq, Repr

/-- The ticket record (`struct Ticket` in ticket.rs).  `created` is a
timestamp modelled as a natural number, `priority` is `i32` modelled as
`Int`. -/
structure Ticket where
  id : Str
  title : Str
  status : Str
  deps : List Str
  links : List Str
  created : Nat
  issue_type : Str
  priority : Int
  description : Option Str
  design : Option Str
  acceptance : Option Str
  assignee : Option Str
  external_ref : Option Str
  parent : Option Str
  project : Option Str
  category : Option Str
  notes : Option (List Note)
deriving DecidableEq, Repr

/-- Options passed to `create_ticket` (`struct CreateOptions` in ticket.rs). -/
structure CreateOptions where
  issue_type : Str
  priority : Int
  description : Option Str
  design : Option Str
  acceptance : Option Str
  assignee : Option Str
  external_ref : Option Str
  parent : Option Str
deriving DecidableEq, Repr

/-- Error taxonomy of the store (spec section 7): reading a missing file is
`notFound`, an undecodable document is `formatErr`, a rejected status is
`invalidStatus`, and other filesystem failures are `ioErr`. -/
inductive Err where
  | notFound
  | formatErr
  | invalidStatus
  | ioErr
deriving DecidableEq, Repr

/-- A filesystem entry: a regular file with content, or a directory.  Paths
are component lists relative to the store root. -/
inductive Entry where
  | file (path : List Str) (content : Str)
  | dir (path : List Str)
deriving DecidableEq, Repr

/-- The path of an entry. -/
def Entry.path : Entry → List Str
  | .file p _ => p
  | .dir p => p

/-- The filesystem: an ordered list of entries.  The list order realises the
directory-listing order the spec leaves unspecified. -/
abbrev FS := List Entry

/-- Does any entry (file or directory) live at this path?  Models
`Path::exists`. -/
def entryExists (fs : FS) (p : List Str) : Bool :=
  fs.any (fun e => decide (e.path = p))

/-- First file content at a path, in listing order.  Models
`fs::read_to_string` succeeding. -/
def readFile (fs : FS) (p : List Str) : Option Str :=
  fs.findSome? (fun e =>
    match e with
    | .file q c => if q = p then some c else none
    | .dir _ => none)

/-- Is there a file at the path? -/
def fileExists (fs : FS) (p : List Str) : Bool :=
  (readFile fs p).isSome

/-- Is there a directory at the path? -/
def dirExists (fs : FS) (p : List Str) : Bool :=
  fs.any (fun e =>
    match e with
    | .dir q => decide (q = p)
    | .file _ _ => false)

/-- Overwrite the file in place when it exists, otherwise append it at the
end of the listing. -/
def writeRaw (fs : FS) (p : List Str) (c : Str) : FS :=
  if fileExists fs p then
    fs.map (fun e =>
      match e with
      | .file q c0 => if q = p then .file q c else .file q c0
      | .dir q => .dir q)
  else
    fs ++ [.file p c]

/-- Models `fs::write`: fails (returns `none`) when the parent directory is
missing or the target path is a directory. -/
def writeFile (fs : FS) (p : List Str) (c : Str) : Option FS :=
  if dirExists fs p then none
  else
    match p with
    | [_] => some (writeRaw fs p c)
    | [d, _] => if dirExists fs [d] then some (writeRaw fs p c) else none
    | _ => none

/-- Models `fs::remove_file`: removes every file entry at the path; fails when
no file is there. -/
def removeFile (fs : FS) (p : List Str) : FS × Option Err :=
  if fileExists fs p then
    (fs.filter (fun e =>
      match e with
      | .file q _ => !decide (q = p)
      | .dir _ => true), none)
  else (fs, some .ioErr)

/-- The entries directly inside a directory, in listing order.  Models
`fs::read_dir` (for a missing directory it yields the empty listing, which
the source treats identically through `if let Ok`). -/
def readDir (fs : FS) (d : List Str) : List Entry :=
  fs.filter (fun e => decide (e.path.length = d.length + 1) && d.isPrefixOf e.path)

/-- The file name of an entry (its last path component). -/
def fname (e : Entry) : Str :=
  (e.path.getLast?).getD []

/-- The seven status directory names, in the fixed enumeration order used
throughout ticket.rs. -/
def statuses : List Str :=
  ["open".toList, "in_progress".toList, "closed".toList, "blocked".toList, "ready".toList,
   "icebox".toList, "archive".toList]

/-- Models `ensure_status_directories`: create each of the seven status
directories unless some entry already occupies the name. -/
def ensure_status_directories (fs : FS) : FS :=
  statuses.foldl (fun acc s => if entryExists acc [s] then acc else acc ++ [.dir [s]]) fs

/-! ## Codec

`save_ticket` frames the document as `---\n{yaml.trim()}---\n\n# {title}` plus
optional description and notes body sections; `load_ticket` splits the raw
text with `splitn(3, "---")`, requires three parts, and parses the trimmed
middle part as the YAML metadata mapping.  The mapping itself is produced and
consumed by the external `serde_yaml` crate, which is not part of the
repository; it is modelled from the spec ("metadata block is parsed as a
structured mapping into the Ticket fields; any field absent from the mapping
becomes the unset value") as a concrete one-field-per-line codec with
double-quoted scalars, fields in struct declaration order. -/

/-- Fuelled digit recursion (structural, so that the kernel can evaluate
it). -/
def renderNatGo : Nat → Nat → Str
  | 0, _ => []
  | fuel + 1, n =>
    if n < 10 then [Nat.digitChar n]
    else renderNatGo fuel (n / 10) ++ [Nat.digitChar (n % 10)]

/-- Decimal rendering of a natural number, most significant digit first. -/
def renderNat (n : Nat) : Str := renderNatGo (n + 1) n

/-- Value of a decimal digit character. -/
def digitVal (c : Char) : Option Nat :=
  if '0' ≤ c ∧ c ≤ '9' then some (c.toNat - '0'.toNat) else none

/-- Accumulator pass of the decimal parser. -/
def parseNatAux (acc : Nat) : Str → Option Nat
  | [] => some acc
  | c :: t =>
    match digitVal c with
    | some d => parseNatAux (acc * 10 + d) t
    | none => none

/-- Decimal parser; rejects the empty string. -/
def parseNat (s : Str) : Option Nat :=
  match s with
  | [] => none
  | _ => parseNatAux 0 s

/-- Rendering of a signed integer. -/
def renderInt (i : Int) : Str :=
  if i < 0 then '-' :: renderNat i.natAbs else renderNat i.toNat

/-- Parser for a signed integer. -/
def parseInt (s : Str) : Option Int :=
  match s with
  | '-' :: t => (parseNat t).map (fun n => -(n : Int))
  | _ => (parseNat s).map (fun n => (n : Int))

/-- Double-quoted scalar. -/
def quote (v : Str) : Str := '"' :: (v ++ ['"'])

/-- Strip the surrounding double quotes of a scalar. -/
def unquote (s : Str) : Option Str :=
  match s with
  | '"' :: t =>
    if t.getLast? = some '"' then some t.dropLast else none
  | _ => none

/-- Join pieces with a separator. -/
def joinSep (sep : Str) : List Str → Str
  | [] => []
  | [x] => x
  | x :: y :: t => x ++ sep ++ joinSep sep (y :: t)

/-- The separator standing between two quoted list elements. -/
def qsep : Str := ['"', ',', ' ', '"']

/-- Flow-style rendering of a string list. -/
def renderList (xs : List Str) : Str :=
  match xs with
  | [] => "[]".toList
  | _ => '[' :: '"' :: (joinSep qsep xs ++ ['"', ']'])

/-- Leftmost split of `s` at the first occurrence of the substring `sep`. -/
def splitOnceSub (sep : Str) : Str → Option (Str × Str)
  | [] => if sep = [] then some ([], []) else none
  | c :: t =>
    if sep.isPrefixOf (c :: t) then some ([], (c :: t).drop sep.length)
    else
      match splitOnceSub sep t with
      | some (a, b) => some (c :: a, b)
      | none => none

/-- Fuelled full split at every occurrence of a substring. -/
def splitOnSubGo (sep : Str) : Nat → Str → List Str
  | 0, s => [s]
  | fuel + 1, s =>
    match splitOnceSub sep s with
    | some (a, b) => a :: splitOnSubGo sep fuel b
    | none => [s]

/-- Full split at every occurrence of a substring. -/
def splitOnSub (sep s : Str) : List Str := splitOnSubGo sep (s.length + 1) s

/-- Parser for the flow-style string list. -/
def parseList (s : Str) : Option (List Str) :=
  if s = "[]".toList then some []
  else
    match s with
    | a :: b :: rest =>
      if a = '[' ∧ b = '"' ∧ rest.getLast? = some ']'
          ∧ rest.dropLast.getLast? = some '"' then
        some (splitOnSub qsep rest.dropLast.dropLast)
      else none
    | _ => none

/-- Split at every newline character. -/
def splitOnChar (c : Char) : Str → List Str
  | [] => [[]]
  | a :: t =>
    if a = c then [] :: splitOnChar c t
    else
      match splitOnChar c t with
      | h :: r => (a :: h) :: r
      | [] => [[a]]

/-- First line carrying the given `"key: "` marker, with the marker removed. -/
def lookupVal (lines : List Str) (k : Str) : Option Str :=
  (lines.find? (fun l => k.isPrefixOf l)).map (fun l => l.drop k.length)

/-- Quoted-scalar field lookup. -/
def lookupQ (lines : List Str) (k : Str) : Option Str :=
  (lookupVal lines k).bind unquote

/-- Line of a required field. -/
def reqLine (k v : Str) : List Str := [k ++ v]

/-- Line of an optional scalar field: nothing when the field is unset
(`skip_serializing_if = "Option::is_none"`). -/
def optLine (k : Str) (v : Option Str) : List Str :=
  match v with
  | none => []
  | some s => [k ++ quote s]

/-- The two mapping lines of one note. -/
def noteLines (n : Note) : List Str :=
  ["- timestamp: ".toList ++ renderNat n.timestamp, "  content: ".toList ++ quote n.content]

/-- The notes block of the mapping. -/
def notesLines (v : Option (List Note)) : List Str :=
  match v with
  | none => []
  | some ns => "notes:".toList :: ns.flatMap noteLines

/-- The metadata mapping, one field per line, struct declaration order,
`issue_type` renamed to `type`. -/
def yamlLines (t : Ticket) : List Str :=
  reqLine ("id: ".toList) (quote t.id)
  ++ reqLine ("title: ".toList) (quote t.title)
  ++ reqLine ("status: ".toList) (quote t.status)
  ++ reqLine ("deps: ".toList) (renderList t.deps)
  ++ reqLine ("links: ".toList) (renderList t.links)
  ++ reqLine ("created: ".toList) (renderNat t.created)
  ++ reqLine ("type: ".toList) (quote t.issue_type)
  ++ reqLine ("priority: ".toList) (renderInt t.priority)
  ++ optLine ("description: ".toList) t.description
  ++ optLine ("design: ".toList) t.design
  ++ optLine ("acceptance: ".toList) t.acceptance
  ++ optLine ("assignee: ".toList) t.assignee
  ++ optLine ("external_ref: ".toList) t.external_ref
  ++ optLine ("parent: ".toList) t.parent
  ++ optLine ("project: ".toList) t.project
  ++ optLine ("category: ".toList) t.category
  ++ notesLines t.notes

/-- The serialized metadata mapping. -/
def encodeYaml (t : Ticket) : Str := joinSep ['\n'] (yamlLines t)

/-- Lines after the `notes:` marker line, when present. -/
def afterNotes : List Str → Option (List Str)
  | [] => none
  | l :: t => if l = "notes:".toList then some t else afterNotes t

/-- Parse the line pairs of the notes block. -/
def parseNotePairs : List Str → Option (List Note)
  | [] => some []
  | l1 :: l2 :: t =>
    if ("- timestamp: ".toList).isPrefixOf l1 ∧ ("  content: ".toList).isPrefixOf l2 then
      match parseNat (l1.drop ("- timestamp: ".toList).length),
            unquote (l2.drop ("  content: ".toList).length), parseNotePairs t with
      | some ts, some c, some rest => some ({ timestamp := ts, content := c } :: rest)
      | _, _, _ => none
    else none
  | _ => none

/-- The notes field of the decoded ticket. -/
def parseNotesOpt (lines : List Str) : Option (Option (List Note)) :=
  match afterNotes lines with
  | none => some none
  | some rest => (parseNotePairs rest).map some

/-- Parse the metadata mapping back into a Ticket; required fields must be
present (`serde` rejects a missing non-optional field), optional fields
default to unset. -/
def yamlParseLines (lines : List Str) : Option Ticket :=
  match lookupQ lines ("id: ".toList), lookupQ lines ("title: ".toList),
        lookupQ lines ("status: ".toList),
        (lookupVal lines ("deps: ".toList)).bind parseList,
        (lookupVal lines ("links: ".toList)).bind parseList,
        (lookupVal lines ("created: ".toList)).bind parseNat,
        lookupQ lines ("type: ".toList),
        (lookupVal lines ("priority: ".toList)).bind parseInt,
        parseNotesOpt lines with
  | some id, some title, some status, some deps, some links, some created,
    some ty, some pr, some notes =>
    some
      { id := id, title := title, status := status, deps := deps, links := links,
        created := created, issue_type := ty, priority := pr,
        description := lookupQ lines ("description: ".toList),
        design := lookupQ lines ("design: ".toList),
        acceptance := lookupQ lines ("acceptance: ".toList),
        assignee := lookupQ lines ("assignee: ".toList),
        external_ref := lookupQ lines ("external_ref: ".toList),
        parent := lookupQ lines ("parent: ".toList),
        project := lookupQ lines ("project: ".toList),
        category := lookupQ lines ("category: ".toList),
        notes := notes }
  | _, _, _, _, _, _, _, _, _ => none

/-- Parse a serialized mapping: split into lines, extract the fields. -/
def yamlParse (s : Str) : Option Ticket := yamlParseLines (splitOnChar '\n' s)

/-- Whitespace test covering the characters the model produces. -/
def isWs (c : Char) : Bool := c = ' ' || c = '\n' || c = '\t' || c = '\r'

/-- Models `str::trim`. -/
def rustTrim (s : Str) : Str := (s.dropWhile isWs).rdropWhile isWs

/-- The block separator marker. -/
def dashes : Str := ['-', '-', '-']

/-- Models `content.splitn(3, "---")` followed by the `parts.len() < 3`
check: fails unless the marker occurs at least twice, and returns the three
parts (the third keeps any further markers unsplit). -/
def split3 (s : Str) : Option (Str × Str × Str) :=
  match splitOnceSub dashes s with
  | none => none
  | some (a, r) =>
    match splitOnceSub dashes r with
    | none => none
    | some (b, c) => some (a, b, c)

/-- The description body section of `save_ticket`. -/
def bodyDesc : Option Str → Str
  | none => []
  | some d => "\n\n".toList ++ d

/-- One rendered body note line (the timestamp format string is modelled as
the decimal timestamp). -/
def bodyNote (n : Note) : Str := "\n**".toList ++ renderNat n.timestamp ++ "**: ".toList ++ n.content

/-- The notes body section of `save_ticket`. -/
def bodyNotes : Option (List Note) → Str
  | none => []
  | some ns => "\n\n## Notes\n".toList ++ ns.flatMap bodyNote

/-- The document `save_ticket` writes: framed trimmed metadata, title
heading, optional description and notes sections. -/
def encodeDoc (t : Ticket) : Str :=
  "---\n".toList ++ rustTrim (encodeYaml t) ++ "---\n\n# ".toList ++ t.title ++ ['\n']
    ++ bodyDesc t.description ++ bodyNotes t.notes

/-- The decoding step of `load_ticket`: split at the markers, parse the
trimmed middle part. -/
def decodeDoc (s : Str) : Except Err Ticket :=
  match split3 s with
  | none => .error .formatErr
  | some (_, p1, _) =>
    match yamlParse (rustTrim p1) with
    | none => .error .formatErr
    | some t => .ok t

/-! ## Store operations -/

/-- Models `ticket_path` (ticket.rs lines 140-160): exact match at the store
root, then a prefix scan of the root listing for a name starting with the id
and ending in `.md`, then the (possibly non-existent) exact root path.  Only
the store root is searched; the status directories are not. -/
def ticket_path (fs : FS) (id : Str) : List Str :=
  let exact := [id ++ ".md".toList]
  if entryExists fs exact then exact
  else
    (((readDir fs []).find?
        (fun e => id.isPrefixOf (fname e) && ".md".toList.isSuffixOf (fname e))).map
      Entry.path).getD exact

/-- Models `ticket_path_by_status` (lines 75-97): exact match then prefix
scan inside the hinted status directory, then the `ticket_path` fallback. -/
def ticket_path_by_status (fs : FS) (id status : Str) : List Str :=
  let exact := [status, id ++ ".md".toList]
  if entryExists fs exact then exact
  else
    match (readDir fs [status]).find?
        (fun e => id.isPrefixOf (fname e) && ".md".toList.isSuffixOf (fname e)) with
    | some e => e.path
    | none => ticket_path fs id

/-- Models `load_ticket` (lines 162-177): resolve through `ticket_path`,
read, decode. -/
def load_ticket (fs : FS) (id : Str) : Except Err Ticket :=
  match readFile fs (ticket_path fs id) with
  | none => .error .notFound
  | some c => decodeDoc c

/-- Models `save_ticket` (lines 179-212): ensure the status directories, then
write the encoded document under the ticket's status directory.  The
directory creation persists even when the write fails. -/
def save_ticket (fs : FS) (t : Ticket) : FS × Option Err :=
  let fs1 := ensure_status_directories fs
  match writeFile fs1 [t.status, t.id ++ ".md".toList] (encodeDoc t) with
  | some fs2 => (fs2, none)
  | none => (fs1, some .ioErr)

/-- Models `validate_status` (lines 492-499). -/
def validate_status (s : Str) : Option Err :=
  if s ∈ statuses then none else some .invalidStatus

/-- Fuelled recursion for `trim_end_matches`. -/
def trimEndMdGo : Nat → Str → Str
  | 0, s => s
  | fuel + 1, s =>
    if ".md".toList.isSuffixOf s then trimEndMdGo fuel s.dropLast.dropLast.dropLast
    else s

/-- Models `filename.trim_end_matches(".md")`: strips every trailing `.md`. -/
def trimEndMd (s : Str) : Str := trimEndMdGo s.length s

/-- Has the name the `md` extension (`path.extension() == "md"` on the file
name)? -/
def hasMdExt (n : Str) : Bool := ".md".toList.isSuffixOf n && decide (4 ≤ n.length)

/-- Insert into a list sorted by `created` descending, before the first
element with an equal or smaller timestamp (so that ties keep the original
enumeration order). -/
def insertDesc (t : Ticket) : List Ticket → List Ticket
  | [] => [t]
  | h :: r => if h.created ≤ t.created then t :: h :: r else h :: insertDesc t r

/-- Stable sort by `created` descending — the behaviour of Rust's stable
`sort_by` with the comparator `b.created.cmp(&a.created)` — written as a
structural insertion sort. -/
def sortByCreatedDesc : List Ticket → List Ticket
  | [] => []
  | x :: xs => insertDesc x (sortByCreatedDesc xs)

/-- Models `list_tickets` (lines 267-301): ensure layout, enumerate every
status directory in the fixed order, keep entries with the `md` extension,
re-load each by its stem through `load_ticket` (silently skipping failures),
and stable-sort the result by `created` descending. -/
def list_tickets (fs : FS) : FS × List Ticket :=
  let fs1 := ensure_status_directories fs
  let ts := statuses.flatMap (fun s =>
    (readDir fs1 [s]).filterMap (fun e =>
      if hasMdExt (fname e) then
        match load_ticket fs1 (trimEndMd (fname e)) with
        | .ok t => some t
        | .error _ => none
      else none))
  (fs1, sortByCreatedDesc ts)

/-- Models `update_status` (lines 540-547): load, validate, set the status
field, save.  No old file is removed and no cascade runs. -/
def update_status (fs : FS) (id s : Str) : FS × Option Err :=
  match load_ticket fs id with
  | .error e => (fs, some e)
  | .ok t =>
    match validate_status s with
    | some e => (fs, some e)
    | none => save_ticket fs { t with status := s }

/-- Models `add_dependency` (lines 549-559): append and save unless already
present. -/
def add_dependency (fs : FS) (id dep : Str) : FS × Option Err :=
  match load_ticket fs id with
  | .error e => (fs, some e)
  | .ok t =>
    if dep ∈ t.deps then (fs, none)
    else save_ticket fs { t with deps := t.deps ++ [dep] }

/-- Models `remove_dependency` (lines 561-571): remove the first occurrence
and save when present, otherwise report not-found without saving. -/
def remove_dependency (fs : FS) (id dep : Str) : FS × Option Err :=
  match load_ticket fs id with
  | .error e => (fs, some e)
  | .ok t =>
    if dep ∈ t.deps then save_ticket fs { t with deps := t.deps.erase dep }
    else (fs, none)

/-- Models `add_note` (lines 573-589): append one note (current time, given
content) to the notes sequence, creating it when absent, and save. -/
def add_note (fs : FS) (id : Str) (content : Str) (now : Nat) : FS × Option Err :=
  match load_ticket fs id with
  | .error e => (fs, some e)
  | .ok t =>
    let note : Note := { timestamp := now, content := content }
    let notes1 :=
      match t.notes with
      | some ns => some (ns ++ [note])
      | none => some [note]
    save_ticket fs { t with notes := notes1 }

/-- Models `create_ticket` (lines 501-528); the generated id and the clock
reading are inputs, the manager's project/category tags are parameters.  The
status is always `open`. -/
def create_ticket (fs : FS) (proj cat : Option Str) (id : Str) (now : Nat)
    (title : Str) (o : CreateOptions) : FS × Option Err :=
  save_ticket fs
    { id := id, title := title, status := "open".toList, deps := [], links := [],
      created := now, issue_type := o.issue_type, priority := o.priority,
      description := o.description, design := o.design, acceptance := o.acceptance,
      assignee := o.assignee, external_ref := o.external_ref, parent := o.parent,
      project := proj, category := cat, notes := none }

/-- The cascade loop of `handle_ticket_closure` (lines 244-262): unblock each
listed blocked ticket that depends on the closing id by removing the
dependency, setting `ready`, saving, and deleting its file under `blocked`
when present; the first error aborts the loop keeping earlier effects. -/
def cascade_go (closingId : Str) : FS → List Ticket → FS × Option Err
  | fs, [] => (fs, none)
  | fs, t :: rest =>
    if closingId ∈ t.deps ∧ t.status = "blocked".toList then
      match save_ticket fs
          { t with deps := t.deps.filter (fun d => !decide (d = closingId)),
                   status := "ready".toList } with
      | (fsA, some e) => (fsA, some e)
      | (fsA, none) =>
        let bp := ticket_path_by_status fsA t.id "blocked".toList
        if entryExists fsA bp then
          match removeFile fsA bp with
          | (fsB, some e) => (fsB, some e)
          | (fsB, none) => cascade_go closingId fsB rest
        else cascade_go closingId fsA rest
    else cascade_go closingId fs rest

/-- Models `handle_ticket_closure` (lines 240-265): list every ticket from
the current state, then run the cascade loop over the listing. -/
def handle_ticket_closure (fs : FS) (closing : Ticket) : FS × Option Err :=
  match list_tickets fs with
  | (fs1, all) => cascade_go closing.id fs1 all

/-- Models `move_ticket_to_status` (lines 214-238): load; return unchanged
when the status is already the target; run the closure cascade when the
target is `closed`; save under the new status; then delete the resolved old
path when it exists and differs from the new target path. -/
def move_ticket_to_status (fs : FS) (id s : Str) : FS × Option Err :=
  match load_ticket fs id with
  | .error e => (fs, some e)
  | .ok t =>
    if t.status = s then (fs, none)
    else
      match (if s = "closed".toList then handle_ticket_closure fs t else (fs, none)) with
      | (fs1, some e) => (fs1, some e)
      | (fs1, none) =>
        match save_ticket fs1 { t with status := s } with
        | (fs2, some e) => (fs2, some e)
        | (fs2, none) =>
          let oldp := ticket_path_by_status fs2 id t.status
          if entryExists fs2 oldp ∧ oldp ≠ [s, id ++ ".md".toList] then removeFile fs2 oldp
          else (fs2, none)

/-! ## Concrete stores used by the witnesses and counterexamples -/

/-- Decidable equality for results of fallible operations. -/
instance instDecEqExceptErrTicket : DecidableEq (Except Err Ticket) :=
  fun a b =>
    match a, b with
    | .error x, .error y =>
      if h : x = y then .isTrue (by rw [h]) else .isFalse (by simp [h])
    | .error _, .ok _ => .isFalse (by simp)
    | .ok _, .error _ => .isFalse (by simp)
    | .ok x, .ok y =>
      if h : x = y then .isTrue (by rw [h]) else .isFalse (by simp [h])

/-- The seven status directories. -/
def dirs7 : FS := statuses.map (fun s => Entry.dir [s])

/-- A plain decodable ticket. -/
def tOpen : Ticket :=
  { id := "t".toList, title := "Test".toList, status := "open".toList, deps := [], links := [],
    created := 5, issue_type := "task".toList, priority := 2, description := none,
    design := none, acceptance := none, assignee := none, external_ref := none,
    parent := none, project := none, category := none, notes := none }

/-- A store whose only ticket is organized under its status directory. -/
def fs0 : FS := dirs7 ++ [Entry.file ["open".toList, "t.md".toList] (encodeDoc tOpen)]

/-- A store whose only ticket sits flat at the store root (the legacy
location, the only one `ticket_path` can resolve). -/
def fsR : FS := dirs7 ++ [Entry.file ["t.md".toList] (encodeDoc tOpen)]

/-- The dependency ticket of the cascade scenario, flat at the root so that
its own transition can proceed. -/
def tA : Ticket :=
  { tOpen with
    id := "A".toList
    title := "Dep".toList }

/-- The blocked dependent of the cascade scenario, organized under
`blocked`. -/
def tB : Ticket :=
  { tOpen with
    id := "B".toList
    title := "Blocked one".toList
    status := "blocked".toList
    deps := ["A".toList]
    created := 6 }

/-- The cascade-scenario store: `A` loadable at the root, `B` blocked with a
dependency on `A`. -/
def fsC : FS := dirs7 ++
  [Entry.file ["A.md".toList] (encodeDoc tA),
   Entry.file ["blocked".toList, "B.md".toList] (encodeDoc tB)]

/-- A ticket whose title contains the block-separator marker. -/
def tBad : Ticket :=
  { tOpen with
    title := "a---b".toList }

/-- The store after add-dependency followed by remove-dependency of the same
edge on the flat-resident ticket. -/
def fsPair : FS :=
  (remove_dependency (add_dependency fsR "t".toList "x".toList).1 "t".toList "x".toList).1

/-- Every persisted deps list recorded for the given id: for each file named
`<id>.md` anywhere in the store (in listing order), the deps field of its
decoded document. -/
def persistedDepsLists (fs : FS) (id : Str) : List (List Str) :=
  fs.filterMap (fun e =>
    match e with
    | .file p c =>
      if p.getLast? = some (id ++ ".md".toList) then
        match decodeDoc c with
        | .ok t => some t.deps
        | .error _ => none
      else none
    | .dir _ => none)

/-- A plain options record for exercising `create_ticket`. -/
def optsPlain : CreateOptions :=
  { issue_type := "task".toList, priority := 2, description := none, design := none,
    acceptance := none, assignee := none, external_ref := none, parent := none }

/-! ## Round-trip side conditions -/

/-- Does the string contain three consecutive dashes (the block-separator
marker)? -/
def hasDashes : Str → Bool
  | [] => false
  | c :: s => (decide (c = '-') && decide (s.take 2 = ['-', '-'])) || hasDashes s

/-- A scalar value that survives the document framing: single line, no
block-separator marker inside. -/
def okScalar (s : Str) : Prop := '\n' ∉ s ∧ hasDashes s = false

/-- A list element additionally free of the quote used by the element
separator. -/
def okElem (s : Str) : Prop := okScalar s ∧ '"' ∉ s

/-- Condition on an optional scalar field. -/
def okOpt : Option Str → Prop
  | none => True
  | some s => okScalar s

/-- Condition on the notes field. -/
def okNotes : Option (List Note) → Prop
  | none => True
  | some ns => ∀ n ∈ ns, okScalar n.content

/-- The round-trip side condition: every text field is a single-line scalar
not containing the `---` marker (list elements also quote-free). -/
def okTicket (t : Ticket) : Prop :=
  okScalar t.id ∧ okScalar t.title ∧ okScalar t.status ∧ okScalar t.issue_type ∧
  (∀ d ∈ t.deps, okElem d) ∧ (∀ l ∈ t.links, okElem l) ∧
  okOpt t.description ∧ okOpt t.design ∧ okOpt t.acceptance ∧ okOpt t.assignee ∧
  okOpt t.external_ref ∧ okOpt t.parent ∧ okOpt t.project ∧ okOpt t.category ∧
  okNotes t.notes

instance : DecidablePred okScalar := fun s => by unfold okScalar; infer_instance

instance : DecidablePred okElem := fun s => by unfold okElem; infer_instance

instance : (o : Option Str) → Decidable (okOpt o) := fun o => by
  unfold okOpt; cases o <;> infer_instance

instance : (o : Option (List Note)) → Decidable (okNotes o) := fun o => by
  unfold okNotes; cases o <;> infer_instance

instance : (t : Ticket) → Decidable (okTicket t) := fun t => by
  unfold okTicket; infer_instance

/-- A ticket exercising every field shape for the round-trip witness. -/
def tNice : Ticket :=
  { id := "tkr-1a2b".toList, title := "Fix login bug".toList, status := "blocked".toList,
    deps := ["tkr-9z".toList, "tkr-8y".toList], links := ["tkr-7x".toList],
    created := 1700000000000, issue_type := "bug".toList, priority := -1,
    description := some "It is broken - badly".toList, design := none,
    acceptance := some "login works".toList, assignee := none,
    external_ref := none, parent := some "tkr-0".toList, project := none,
    category := some "auth".toList,
    notes := some [{ timestamp := 17, content := "first note".toList },
                   { timestamp := 18, content := "second: note".toList }] }

/-! ## General lemmas: digits, dashes, substring splitting -/

theorem digitChar_digit (n : Nat) (h : n < 10) : (Nat.digitChar n).isDigit = true := by
  interval_cases n <;> decide

theorem ne_of_isDigit (c x : Char) (h : c.isDigit = true) (hx : x.isDigit = false) :
    c ≠ x := by
  intro he
  rw [he, hx] at h
  exact Bool.noConfusion h

theorem isWs_of_isDigit (c : Char) (h : c.isDigit = true) : isWs c = false := by
  have h1 : c ≠ ' ' := ne_of_isDigit c ' ' h (by decide)
  have h2 : c ≠ '\n' := ne_of_isDigit c '\n' h (by decide)
  have h3 : c ≠ '\t' := ne_of_isDigit c '\t' h (by decide)
  have h4 : c ≠ '\r' := ne_of_isDigit c '\r' h (by decide)
  simp [isWs, h1, h2, h3, h4]

theorem renderNatGo_digits (fuel : Nat) : ∀ (n : Nat), ∀ c ∈ renderNatGo fuel n,
    c.isDigit = true := by
  induction fuel with
  | zero => intro n c hc; simp [renderNatGo] at hc
  | succ f ih =>
    intro n c hc
    unfold renderNatGo at hc
    by_cases hn : n < 10
    · rw [if_pos hn] at hc
      simp at hc
      subst hc
      exact digitChar_digit n hn
    · rw [if_neg hn] at hc
      rcases List.mem_append.mp hc with h | h
      · exact ih _ c h
      · simp at h
        subst h
        exact digitChar_digit _ (Nat.mod_lt _ (by omega))

theorem renderNat_digits (n : Nat) : ∀ c ∈ renderNat n, c.isDigit = true :=
  renderNatGo_digits (n + 1) n

theorem renderNatGo_ne_nil (fuel n : Nat) (h : n < fuel) : renderNatGo fuel n ≠ [] := by
  cases fuel with
  | zero => omega
  | succ f =>
    unfold renderNatGo
    by_cases hn : n < 10
    · rw [if_pos hn]; simp
    · rw [if_neg hn]; simp

theorem renderNat_ne_nil (n : Nat) : renderNat n ≠ [] :=
  renderNatGo_ne_nil (n + 1) n (by omega)

theorem hasDashes_cons_ne (c : Char) (s : Str) (h : c ≠ '-') :
    hasDashes (c :: s) = hasDashes s := by
  simp [hasDashes, h]

theorem hasDashes_false_tail (c : Char) (s : Str) (h : hasDashes (c :: s) = false) :
    hasDashes s = false := by
  unfold hasDashes at h
  exact (Bool.or_eq_false_iff.mp h).2

theorem hasDashes_eq_false_of_all (s : Str) (h : ∀ c ∈ s, c ≠ '-') :
    hasDashes s = false := by
  induction s with
  | nil => rfl
  | cons c t ih =>
    unfold hasDashes
    have hc : c ≠ '-' := h c (by simp)
    simp [hc]
    exact ih (fun x hx => h x (by simp [hx]))

theorem hasDashes_append_all (a b : Str) (ha : ∀ c ∈ a, c ≠ '-') :
    hasDashes (a ++ b) = hasDashes b := by
  induction a with
  | nil => rfl
  | cons c a' ih =>
    rw [List.cons_append]
    rw [hasDashes_cons_ne _ _ (ha c (by simp))]
    exact ih (fun x hx => ha x (by simp [hx]))

theorem hasDashes_cons (c : Char) (s : Str) :
    hasDashes (c :: s)
      = ((decide (c = '-') && decide (s.take 2 = ['-', '-'])) || hasDashes s) := rfl

theorem hasDashes_append_of_head (a b : Str)
    (hb : ∀ c, b.head? = some c → c ≠ '-') :
    hasDashes (a ++ b) = (hasDashes a || hasDashes b) := by
  induction a with
  | nil =>
    simp [hasDashes]
  | cons c a' ih =>
    rw [List.cons_append, hasDashes_cons c (a' ++ b), hasDashes_cons c a', ih]
    have htake : decide ((a' ++ b).take 2 = ['-', '-'])
        = decide (a'.take 2 = ['-', '-']) := by
      apply decide_eq_decide.mpr
      rcases a' with _ | ⟨d, a''⟩
      · rcases b with _ | ⟨x, b'⟩
        · exact Iff.rfl
        · have hx : x ≠ '-' := hb x rfl
          simp [List.take]
          intro h
          exact absurd h hx
      · rcases a'' with _ | ⟨e, a'''⟩
        · rcases b with _ | ⟨x, b'⟩
          · exact Iff.rfl
          · have hx : x ≠ '-' := hb x rfl
            simp [List.take]
            intro _ h
            exact absurd h hx
        · exact Iff.rfl
    rw [htake, Bool.or_assoc]

theorem isPrefixOf_append_self (a b : Str) : a.isPrefixOf (a ++ b) = true := by
  rw [List.isPrefixOf_iff_prefix]
  exact List.prefix_append a b

theorem splitOnceSub_self (sep r : Str) : splitOnceSub sep (sep ++ r) = some ([], r) := by
  cases sep with
  | nil =>
    cases r with
    | nil => rfl
    | cons c t => simp [splitOnceSub]
  | cons c s' =>
    show splitOnceSub (c :: s') (c :: (s' ++ r)) = some ([], r)
    unfold splitOnceSub
    rw [show (c :: s').isPrefixOf (c :: (s' ++ r)) = true from isPrefixOf_append_self (c :: s') r]
    simp [List.drop_left]

theorem splitOnceSub_cons_some (sep : Str) (c : Char) (t a b : Str)
    (h : sep.isPrefixOf (c :: t) = false) (h2 : splitOnceSub sep t = some (a, b)) :
    splitOnceSub sep (c :: t) = some (c :: a, b) := by
  unfold splitOnceSub
  rw [h, h2]
  simp

theorem splitOnceSub_cons_none (sep : Str) (c : Char) (t : Str)
    (h : sep.isPrefixOf (c :: t) = false) (h2 : splitOnceSub sep t = none) :
    splitOnceSub sep (c :: t) = none := by
  unfold splitOnceSub
  rw [h, h2]
  simp

theorem dashes_not_lead (x r : Str) (c : Char) (hx : hasDashes (c :: x) = false)
    (hl : (c :: x).getLast? ≠ some '-') :
    dashes.isPrefixOf (c :: (x ++ dashes ++ r)) = false := by
  show (['-', '-', '-'] : Str).isPrefixOf (c :: (x ++ dashes ++ r)) = false
  by_cases hc : c = '-'
  · subst hc
    rcases x with _ | ⟨d, x'⟩
    · exact absurd (by decide) hl
    · by_cases hd : d = '-'
      · subst hd
        rcases x' with _ | ⟨e, x''⟩
        · exact absurd (by decide) hl
        · have he : e ≠ '-' := by
            intro he
            subst he
            rw [hasDashes_cons] at hx
            simp [List.take] at hx
          simp [List.isPrefixOf, Ne.symm he]
      · simp [List.isPrefixOf, Ne.symm hd]
  · simp [List.isPrefixOf, Ne.symm hc]

theorem splitOnceSub_dashes (x r : Str) (hx : hasDashes x = false)
    (hl : x.getLast? ≠ some '-') :
    splitOnceSub dashes (x ++ dashes ++ r) = some (x, r) := by
  induction x with
  | nil => simpa using splitOnceSub_self dashes r
  | cons c x' ih =>
    have hshape : (c :: x') ++ dashes ++ r = c :: (x' ++ dashes ++ r) := by simp
    have hx' : hasDashes x' = false := hasDashes_false_tail c x' hx
    have hl' : x'.getLast? ≠ some '-' := by
      rcases x' with _ | ⟨d, x''⟩
      · simp
      · rw [List.getLast?_cons_cons] at hl
        exact hl
    rw [hshape]
    exact splitOnceSub_cons_some _ _ _ _ _ (dashes_not_lead x' r c hx hl) (ih hx' hl')

theorem sep_not_prefix_headfree (sep : Str) (q : Char) (hq : sep.head? = some q)
    (c : Char) (w : Str) (hc : c ≠ q) : sep.isPrefixOf (c :: w) = false := by
  rcases sep with _ | ⟨s0, sep'⟩
  · simp at hq
  · simp at hq
    subst hq
    simp [List.isPrefixOf]
    intro h
    exact absurd h.symm hc

theorem splitOnceSub_headfree (sep : Str) (q : Char) (hq : sep.head? = some q)
    (x r : Str) (hx : q ∉ x) : splitOnceSub sep (x ++ sep ++ r) = some (x, r) := by
  induction x with
  | nil => simpa using splitOnceSub_self sep r
  | cons c x' ih =>
    have hshape : (c :: x') ++ sep ++ r = c :: (x' ++ sep ++ r) := by simp
    have hc : c ≠ q := by
      intro he; exact hx (by simp [he])
    rw [hshape]
    exact splitOnceSub_cons_some _ _ _ _ _ (sep_not_prefix_headfree sep q hq c _ hc)
      (ih (fun hmem => hx (by simp [hmem])))

theorem splitOnceSub_none_headfree (sep : Str) (q : Char) (hq : sep.head? = some q)
    (s : Str) (hs : q ∉ s) : splitOnceSub sep s = none := by
  induction s with
  | nil =>
    unfold splitOnceSub
    rcases sep with _ | ⟨s0, sep'⟩
    · simp at hq
    · simp
  | cons c t ih =>
    have hc : c ≠ q := by
      intro he; exact hs (by simp [he])
    exact splitOnceSub_cons_none _ _ _ (sep_not_prefix_headfree sep q hq c _ hc)
      (ih (fun hmem => hs (by simp [hmem])))

theorem split3_eq (y rest : Str) (hy : hasDashes y = false) (hl : y.getLast? ≠ some '-') :
    split3 (dashes ++ y ++ dashes ++ rest) = some ([], y, rest) := by
  unfold split3
  have hshape : dashes ++ y ++ dashes ++ rest = dashes ++ (y ++ dashes ++ rest) := by simp
  have h2 : splitOnceSub dashes (y ++ (dashes ++ rest)) = some (y, rest) := by
    rw [← List.append_assoc]
    exact splitOnceSub_dashes y rest hy hl
  rw [hshape, splitOnceSub_self]
  simp [h2]

/-! ## Parser-renderer inverses -/

theorem digitVal_digitChar (n : Nat) (h : n < 10) : digitVal (Nat.digitChar n) = some n := by
  interval_cases n <;> decide

theorem parseNatAux_append (acc : Nat) (a b : Str) :
    parseNatAux acc (a ++ b) =
      match parseNatAux acc a with
      | some m => parseNatAux m b
      | none => none := by
  induction a generalizing acc with
  | nil => rfl
  | cons c t ih =>
    rw [List.cons_append]
    show (match digitVal c with
          | some d => parseNatAux (acc * 10 + d) (t ++ b)
          | none => none) =
      match (match digitVal c with
             | some d => parseNatAux (acc * 10 + d) t
             | none => none) with
      | some m => parseNatAux m b
      | none => none
    cases digitVal c with
    | none => rfl
    | some d => exact ih (acc * 10 + d)

theorem parseNatAux_renderNatGo (fuel : Nat) :
    ∀ n acc, n < fuel →
      parseNatAux acc (renderNatGo fuel n)
        = some (acc * 10 ^ (renderNatGo fuel n).length + n) := by
  induction fuel with
  | zero => intro n acc h; omega
  | succ f ih =>
    intro n acc h
    by_cases hn : n < 10
    · show parseNatAux acc (if n < 10 then [Nat.digitChar n] else _)
        = some (acc * 10 ^ (if n < 10 then [Nat.digitChar n] else _).length + n)
      rw [if_pos hn]
      show (match digitVal (Nat.digitChar n) with
            | some d => parseNatAux (acc * 10 + d) []
            | none => none) = _
      rw [digitVal_digitChar n hn]
      show some (acc * 10 + n) = some (acc * 10 ^ ([Nat.digitChar n] : Str).length + n)
      norm_num
    · show parseNatAux acc
          (if n < 10 then _ else renderNatGo f (n / 10) ++ [Nat.digitChar (n % 10)])
        = some (acc * 10 ^ (if n < 10 then _
            else renderNatGo f (n / 10) ++ [Nat.digitChar (n % 10)]).length + n)
      rw [if_neg hn]
      rw [parseNatAux_append]
      have hf : n / 10 < f := by omega
      rw [ih (n / 10) acc hf]
      show (match digitVal (Nat.digitChar (n % 10)) with
            | some d => parseNatAux ((acc * 10 ^ (renderNatGo f (n / 10)).length + n / 10) * 10 + d) []
            | none => none) = _
      rw [digitVal_digitChar _ (Nat.mod_lt _ (by omega))]
      show some ((acc * 10 ^ (renderNatGo f (n / 10)).length + n / 10) * 10 + n % 10) = _
      congr 1
      rw [List.length_append, List.length_singleton, pow_succ]
      calc (acc * 10 ^ (renderNatGo f (n / 10)).length + n / 10) * 10 + n % 10
          = acc * (10 ^ (renderNatGo f (n / 10)).length * 10)
            + (n / 10 * 10 + n % 10) := by ring
        _ = acc * (10 ^ (renderNatGo f (n / 10)).length * 10) + n := by
            congr 1
            omega

theorem parseNat_renderNat (n : Nat) : parseNat (renderNat n) = some n := by
  have h := parseNatAux_renderNatGo (n + 1) n 0 (by omega)
  have hne := renderNat_ne_nil n
  unfold renderNat at hne ⊢
  rcases hr : renderNatGo (n + 1) n with _ | ⟨c, t⟩
  · exact absurd hr hne
  · rw [hr] at h
    show parseNatAux 0 (c :: t) = some n
    simpa using h

theorem parseInt_cons_ne (c : Char) (t : Str) (h : c ≠ '-') :
    parseInt (c :: t) = (parseNat (c :: t)).map (fun n => (n : Int)) := by
  unfold parseInt
  split
  · next heq =>
      injection heq with h1 h2
      exact absurd h1 h
  · rfl

theorem parseInt_renderInt (i : Int) : parseInt (renderInt i) = some i := by
  unfold renderInt
  by_cases hi : i < 0
  · rw [if_pos hi]
    show (parseNat (renderNat i.natAbs)).map (fun n => -(n : Int)) = some i
    rw [parseNat_renderNat]
    have hv : ((i.natAbs : Int)) = -i := Int.ofNat_natAbs_of_nonpos (le_of_lt hi)
    simp [hv]
  · rw [if_neg hi]
    rcases hr : renderNat i.toNat with _ | ⟨c, t⟩
    · exact absurd hr (renderNat_ne_nil _)
    · have hc : c ≠ '-' := by
        have hd := renderNat_digits i.toNat c (by rw [hr]; simp)
        exact ne_of_isDigit c '-' hd (by decide)
      rw [parseInt_cons_ne c t hc, ← hr, parseNat_renderNat]
      simp [Int.toNat_of_nonneg (not_lt.mp hi)]

theorem unquote_quote (v : Str) : unquote (quote v) = some v := by
  show unquote ('"' :: (v ++ ['"'])) = some v
  unfold unquote
  simp [List.getLast?_concat, List.dropLast_concat]

theorem splitOnSubGo_joinSep :
    ∀ (xs : List Str) (fuel : Nat), xs ≠ [] → (∀ x ∈ xs, '"' ∉ x) →
      (joinSep qsep xs).length < fuel →
      splitOnSubGo qsep fuel (joinSep qsep xs) = xs := by
  intro xs
  induction xs with
  | nil => intro fuel h; exact absurd rfl h
  | cons x ys ih =>
    intro fuel _ hq hf
    rcases ys with _ | ⟨y, t⟩
    · show splitOnSubGo qsep fuel x = [x]
      cases fuel with
      | zero => rfl
      | succ f =>
        show (match splitOnceSub qsep x with
              | some (a, b) => a :: splitOnSubGo qsep f b
              | none => [x]) = [x]
        rw [splitOnceSub_none_headfree qsep '"' rfl x (hq x (by simp))]
    · cases fuel with
      | zero =>
        exfalso
        omega
      | succ f =>
        show (match splitOnceSub qsep (joinSep qsep (x :: y :: t)) with
              | some (a, b) => a :: splitOnSubGo qsep f b
              | none => [joinSep qsep (x :: y :: t)]) = x :: y :: t
        have hj : joinSep qsep (x :: y :: t) = x ++ qsep ++ joinSep qsep (y :: t) := rfl
        have hlen : (x ++ qsep ++ joinSep qsep (y :: t)).length
            = x.length + 4 + (joinSep qsep (y :: t)).length := by
          simp [qsep]
          omega
        have hrec := ih f (by simp) (fun z hz => hq z (by simp [hz]))
          (by rw [hj] at hf; omega)
        rw [hj, splitOnceSub_headfree qsep '"' rfl x _ (hq x (by simp))]
        simp [hrec]

theorem splitOnSub_joinSep (xs : List Str) (hne : xs ≠ []) (hq : ∀ x ∈ xs, '"' ∉ x) :
    splitOnSub qsep (joinSep qsep xs) = xs :=
  splitOnSubGo_joinSep xs _ hne hq (by omega)

theorem parseList_renderList (xs : List Str) (hq : ∀ x ∈ xs, '"' ∉ x) :
    parseList (renderList xs) = some xs := by
  rcases xs with _ | ⟨x, ys⟩
  · rfl
  · show parseList ('[' :: '"' :: (joinSep qsep (x :: ys) ++ ['"', ']'])) = some (x :: ys)
    unfold parseList
    rw [if_neg (by simp)]
    have hsplit : joinSep qsep (x :: ys) ++ ['"', ']']
        = (joinSep qsep (x :: ys) ++ ['"']) ++ [']'] := by simp
    show (if '[' = '[' ∧ '"' = '"'
          ∧ (joinSep qsep (x :: ys) ++ ['"', ']']).getLast? = some ']'
          ∧ (joinSep qsep (x :: ys) ++ ['"', ']']).dropLast.getLast? = some '"' then
        some (splitOnSub qsep (joinSep qsep (x :: ys) ++ ['"', ']']).dropLast.dropLast)
      else none) = some (x :: ys)
    rw [hsplit]
    rw [if_pos ?hcond]
    case hcond =>
      refine ⟨rfl, rfl, List.getLast?_concat _, ?_⟩
      rw [List.dropLast_concat]
      exact List.getLast?_concat _
    rw [List.dropLast_concat, List.dropLast_concat]
    rw [splitOnSub_joinSep (x :: ys) (by simp) hq]

theorem splitOnChar_no (c : Char) (s : Str) (h : c ∉ s) : splitOnChar c s = [s] := by
  induction s with
  | nil => rfl
  | cons a t ih =>
    have ha : a ≠ c := fun he => h (by simp [he])
    show (if a = c then [] :: splitOnChar c t
          else match splitOnChar c t with
               | h :: r => (a :: h) :: r
               | [] => [[a]]) = [a :: t]
    rw [if_neg ha, ih (fun hm => h (by simp [hm]))]

theorem splitOnChar_sep (c : Char) (x rest : Str) (hx : c ∉ x) :
    splitOnChar c (x ++ c :: rest) = x :: splitOnChar c rest := by
  induction x with
  | nil =>
    show (if c = c then [] :: splitOnChar c rest else _) = [] :: splitOnChar c rest
    rw [if_pos rfl]
  | cons a t ih =>
    have ha : a ≠ c := fun he => hx (by simp [he])
    show (if a = c then [] :: splitOnChar c (t ++ c :: rest)
          else match splitOnChar c (t ++ c :: rest) with
               | h :: r => (a :: h) :: r
               | [] => [[a]]) = (a :: t) :: splitOnChar c rest
    rw [if_neg ha, ih (fun hm => hx (by simp [hm]))]

theorem splitOnChar_joinSep (c : Char) :
    ∀ (lines : List Str), lines ≠ [] → (∀ l ∈ lines, c ∉ l) →
      splitOnChar c (joinSep [c] lines) = lines := by
  intro lines
  induction lines with
  | nil => intro h; exact absurd rfl h
  | cons x ys ih =>
    intro _ hl
    rcases ys with _ | ⟨y, t⟩
    · exact splitOnChar_no c x (hl x (by simp))
    · have hj : joinSep [c] (x :: y :: t) = x ++ c :: joinSep [c] (y :: t) := by
        show x ++ [c] ++ joinSep [c] (y :: t) = x ++ c :: joinSep [c] (y :: t)
        simp
      rw [hj, splitOnChar_sep c x _ (hl x (by simp))]
      rw [ih (by simp) (fun z hz => hl z (by simp [hz]))]

theorem afterNotes_append (a b : List Str) :
    afterNotes (a ++ b) =
      match afterNotes a with
      | some r => some (r ++ b)
      | none => afterNotes b := by
  induction a with
  | nil => rfl
  | cons l t ih =>
    show (if l = "notes:".toList then some (t ++ b) else afterNotes (t ++ b)) =
      match (if l = "notes:".toList then some t else afterNotes t) with
      | some r => some (r ++ b)
      | none => afterNotes b
    by_cases hl : l = "notes:".toList
    · rw [if_pos hl, if_pos hl]
    · rw [if_neg hl, if_neg hl, ih]

theorem afterNotes_none (a : List Str) (h : ∀ l ∈ a, l ≠ "notes:".toList) :
    afterNotes a = none := by
  induction a with
  | nil => rfl
  | cons l t ih =>
    show (if l = "notes:".toList then some t else afterNotes t) = none
    rw [if_neg (h l (by simp))]
    exact ih (fun z hz => h z (by simp [hz]))

theorem parseNotePairs_noteLines (ns : List Note) :
    parseNotePairs (ns.flatMap noteLines) = some ns := by
  induction ns with
  | nil => rfl
  | cons n t ih =>
    show parseNotePairs (("- timestamp: ".toList ++ renderNat n.timestamp)
      :: ("  content: ".toList ++ quote n.content) :: t.flatMap noteLines) = some (n :: t)
    unfold parseNotePairs
    rw [if_pos ⟨isPrefixOf_append_self .., isPrefixOf_append_self ..⟩]
    rw [show ("- timestamp: ".toList ++ renderNat n.timestamp).drop
          ("- timestamp: ".toList).length = renderNat n.timestamp from List.drop_left ..]
    rw [show ("  content: ".toList ++ quote n.content).drop
          ("  content: ".toList).length = quote n.content from List.drop_left ..]
    rw [parseNat_renderNat, unquote_quote, ih]

/-! ## Field lookup lemmas -/

theorem or_map (o o' : Option Str) (f : Str → Str) :
    (o.or o').map f = (o.map f).or (o'.map f) := by
  cases o <;> rfl

theorem lookupVal_append (a b : List Str) (k : Str) :
    lookupVal (a ++ b) k = (lookupVal a k).or (lookupVal b k) := by
  unfold lookupVal
  rw [List.find?_append, or_map]

theorem not_isPrefixOf_append (k k1 v : Str)
    (h : (k.take k1.length).isPrefixOf k1 = false) :
    k.isPrefixOf (k1 ++ v) = false := by
  by_contra hc
  rw [Bool.not_eq_false, List.isPrefixOf_iff_prefix] at hc
  rw [Bool.eq_false_iff] at h
  apply h
  rw [List.isPrefixOf_iff_prefix]
  have h1 : k.take k1.length <+: (k1 ++ v).take k1.length := by
    rcases hc with ⟨s, hs⟩
    rw [← hs, List.take_append_eq_append_take]
    exact List.prefix_append ..
  rwa [List.take_left] at h1

theorem lookupVal_reqLine_self (k v : Str) : lookupVal (reqLine k v) k = some v := by
  unfold lookupVal reqLine
  rw [List.find?_cons_of_pos _ (isPrefixOf_append_self ..)]
  simp [List.drop_left]

theorem lookupVal_reqLine_ne (k k1 v : Str)
    (h : (k.take k1.length).isPrefixOf k1 = false) :
    lookupVal (reqLine k1 v) k = none := by
  unfold lookupVal reqLine
  rw [List.find?_cons_of_neg _ (by simp [not_isPrefixOf_append k k1 v h])]
  rfl

theorem lookupVal_optLine_self (k : Str) (v : Option Str) :
    lookupVal (optLine k v) k = v.map quote := by
  cases v with
  | none => rfl
  | some s => exact lookupVal_reqLine_self k (quote s)

theorem lookupVal_optLine_ne (k k1 : Str) (v : Option Str)
    (h : (k.take k1.length).isPrefixOf k1 = false) :
    lookupVal (optLine k1 v) k = none := by
  cases v with
  | none => rfl
  | some s => exact lookupVal_reqLine_ne k k1 (quote s) h

theorem lookupVal_notesLines_none (k : Str) (v : Option (List Note))
    (h1 : k.isPrefixOf ("notes:".toList) = false)
    (h2 : (k.take ("- timestamp: ".toList).length).isPrefixOf ("- timestamp: ".toList) = false)
    (h3 : (k.take ("  content: ".toList).length).isPrefixOf ("  content: ".toList) = false) :
    lookupVal (notesLines v) k = none := by
  cases v with
  | none => rfl
  | some ns =>
    show lookupVal ("notes:".toList :: ns.flatMap noteLines) k = none
    unfold lookupVal
    rw [List.find?_cons_of_neg _ ?hng]
    case hng =>
      intro hx
      rw [h1] at hx
      exact Bool.noConfusion hx
    rw [List.find?_eq_none.mpr]
    · rfl
    · intro l hl
      rcases List.mem_flatMap.mp hl with ⟨n, _, hn⟩
      simp only [noteLines, List.mem_cons, List.not_mem_nil, or_false] at hn
      rcases hn with h | h
      · subst h
        intro hx
        rw [not_isPrefixOf_append _ _ _ h2] at hx
        exact Bool.noConfusion hx
      · subst h
        intro hx
        rw [not_isPrefixOf_append _ _ _ h3] at hx
        exact Bool.noConfusion hx

theorem some_or' (a : Str) (o : Option Str) : (some a).or o = some a := rfl

theorem afterNotes_reqLine (k v : Str) (c : Char) (hk : k.head? = some c)
    (hc : c ≠ 'n') : afterNotes (reqLine k v) = none := by
  apply afterNotes_none
  intro l hl
  simp only [reqLine, List.mem_cons, List.not_mem_nil, or_false] at hl
  subst hl
  intro he
  have hh : (k ++ v).head? = some 'n' := by rw [he]; rfl
  rw [List.head?_append, hk] at hh
  exact hc (Option.some.inj hh)

theorem afterNotes_optLine (k : Str) (v : Option Str) (c : Char) (hk : k.head? = some c)
    (hc : c ≠ 'n') : afterNotes (optLine k v) = none := by
  cases v with
  | none => rfl
  | some s => exact afterNotes_reqLine k (quote s) c hk hc

theorem parseNotesOpt_yamlLines (t : Ticket) :
    parseNotesOpt (yamlLines t) = some t.notes := by
  unfold parseNotesOpt yamlLines
  simp only [afterNotes_append,
    afterNotes_reqLine ("id: ".toList) _ 'i' rfl (by decide),
    afterNotes_reqLine ("title: ".toList) _ 't' rfl (by decide),
    afterNotes_reqLine ("status: ".toList) _ 's' rfl (by decide),
    afterNotes_reqLine ("deps: ".toList) _ 'd' rfl (by decide),
    afterNotes_reqLine ("links: ".toList) _ 'l' rfl (by decide),
    afterNotes_reqLine ("created: ".toList) _ 'c' rfl (by decide),
    afterNotes_reqLine ("type: ".toList) _ 't' rfl (by decide),
    afterNotes_reqLine ("priority: ".toList) _ 'p' rfl (by decide),
    afterNotes_optLine ("description: ".toList) _ 'd' rfl (by decide),
    afterNotes_optLine ("design: ".toList) _ 'd' rfl (by decide),
    afterNotes_optLine ("acceptance: ".toList) _ 'a' rfl (by decide),
    afterNotes_optLine ("assignee: ".toList) _ 'a' rfl (by decide),
    afterNotes_optLine ("external_ref: ".toList) _ 'e' rfl (by decide),
    afterNotes_optLine ("parent: ".toList) _ 'p' rfl (by decide),
    afterNotes_optLine ("project: ".toList) _ 'p' rfl (by decide),
    afterNotes_optLine ("category: ".toList) _ 'c' rfl (by decide)]
  cases hn : t.notes with
  | none => rfl
  | some ns =>
    show (parseNotePairs (ns.flatMap noteLines)).map some = some (some ns)
    rw [parseNotePairs_noteLines]
    rfl

theorem yamlParseLines_yamlLines (t : Ticket)
    (hd : ∀ d ∈ t.deps, '"' ∉ d) (hl : ∀ x ∈ t.links, '"' ∉ x) :
    yamlParseLines (yamlLines t) = some t := by
  have hid : lookupVal (yamlLines t) ("id: ".toList) = some (quote t.id) := by
    unfold yamlLines
    simp only [lookupVal_append, lookupVal_reqLine_self, some_or']
  have htitle : lookupVal (yamlLines t) ("title: ".toList) = some (quote t.title) := by
    unfold yamlLines
    simp +decide only [lookupVal_append, lookupVal_reqLine_self, lookupVal_reqLine_ne,
      some_or', Option.none_or]
  have hstatus : lookupVal (yamlLines t) ("status: ".toList) = some (quote t.status) := by
    unfold yamlLines
    simp +decide only [lookupVal_append, lookupVal_reqLine_self, lookupVal_reqLine_ne,
      some_or', Option.none_or]
  have hdeps : lookupVal (yamlLines t) ("deps: ".toList) = some (renderList t.deps) := by
    unfold yamlLines
    simp +decide only [lookupVal_append, lookupVal_reqLine_self, lookupVal_reqLine_ne,
      some_or', Option.none_or]
  have hlinks : lookupVal (yamlLines t) ("links: ".toList) = some (renderList t.links) := by
    unfold yamlLines
    simp +decide only [lookupVal_append, lookupVal_reqLine_self, lookupVal_reqLine_ne,
      some_or', Option.none_or]
  have hcreated : lookupVal (yamlLines t) ("created: ".toList)
      = some (renderNat t.created) := by
    unfold yamlLines
    simp +decide only [lookupVal_append, lookupVal_reqLine_self, lookupVal_reqLine_ne,
      some_or', Option.none_or]
  have hty : lookupVal (yamlLines t) ("type: ".toList) = some (quote t.issue_type) := by
    unfold yamlLines
    simp +decide only [lookupVal_append, lookupVal_reqLine_self, lookupVal_reqLine_ne,
      some_or', Option.none_or]
  have hpr : lookupVal (yamlLines t) ("priority: ".toList)
      = some (renderInt t.priority) := by
    unfold yamlLines
    simp +decide only [lookupVal_append, lookupVal_reqLine_self, lookupVal_reqLine_ne,
      some_or', Option.none_or]
  have hdesc : lookupVal (yamlLines t) ("description: ".toList)
      = t.description.map quote := by
    unfold yamlLines
    simp +decide only [lookupVal_append, lookupVal_reqLine_ne, lookupVal_optLine_self,
      lookupVal_optLine_ne, lookupVal_notesLines_none, Option.none_or, Option.or_none]
  have hdesign : lookupVal (yamlLines t) ("design: ".toList) = t.design.map quote := by
    unfold yamlLines
    simp +decide only [lookupVal_append, lookupVal_reqLine_ne, lookupVal_optLine_self,
      lookupVal_optLine_ne, lookupVal_notesLines_none, Option.none_or, Option.or_none]
  have hacc : lookupVal (yamlLines t) ("acceptance: ".toList)
      = t.acceptance.map quote := by
    unfold yamlLines
    simp +decide only [lookupVal_append, lookupVal_reqLine_ne, lookupVal_optLine_self,
      lookupVal_optLine_ne, lookupVal_notesLines_none, Option.none_or, Option.or_none]
  have hass : lookupVal (yamlLines t) ("assignee: ".toList) = t.assignee.map quote := by
    unfold yamlLines
    simp +decide only [lookupVal_append, lookupVal_reqLine_ne, lookupVal_optLine_self,
      lookupVal_optLine_ne, lookupVal_notesLines_none, Option.none_or, Option.or_none]
  have hext : lookupVal (yamlLines t) ("external_ref: ".toList)
      = t.external_ref.map quote := by
    unfold yamlLines
    simp +decide only [lookupVal_append, lookupVal_reqLine_ne, lookupVal_optLine_self,
      lookupVal_optLine_ne, lookupVal_notesLines_none, Option.none_or, Option.or_none]
  have hpar : lookupVal (yamlLines t) ("parent: ".toList) = t.parent.map quote := by
    unfold yamlLines
    simp +decide only [lookupVal_append, lookupVal_reqLine_ne, lookupVal_optLine_self,
      lookupVal_optLine_ne, lookupVal_notesLines_none, Option.none_or, Option.or_none]
  have hproj : lookupVal (yamlLines t) ("project: ".toList) = t.project.map quote := by
    unfold yamlLines
    simp +decide only [lookupVal_append, lookupVal_reqLine_ne, lookupVal_optLine_self,
      lookupVal_optLine_ne, lookupVal_notesLines_none, Option.none_or, Option.or_none]
  have hcat : lookupVal (yamlLines t) ("category: ".toList) = t.category.map quote := by
    unfold yamlLines
    simp +decide only [lookupVal_append, lookupVal_reqLine_ne, lookupVal_optLine_self,
      lookupVal_optLine_ne, lookupVal_notesLines_none, Option.none_or, Option.or_none]
  have hnotes := parseNotesOpt_yamlLines t
  have hmapq : ∀ (o : Option Str), (o.map quote).bind unquote = o := by
    intro o
    cases o with
    | none => rfl
    | some s =>
      show unquote (quote s) = some s
      exact unquote_quote s
  unfold yamlParseLines lookupQ
  rw [hid, htitle, hstatus, hdeps, hlinks, hcreated, hty, hpr, hdesc, hdesign, hacc,
    hass, hext, hpar, hproj, hcat, hnotes]
  show (match unquote (quote t.id), unquote (quote t.title), unquote (quote t.status),
        parseList (renderList t.deps), parseList (renderList t.links),
        parseNat (renderNat t.created), unquote (quote t.issue_type),
        parseInt (renderInt t.priority), some t.notes with
    | some id, some title, some status, some deps, some links, some created,
      some ty, some pr, some notes =>
      some
        { id := id, title := title, status := status, deps := deps, links := links,
          created := created, issue_type := ty, priority := pr,
          description := (t.description.map quote).bind unquote,
          design := (t.design.map quote).bind unquote,
          acceptance := (t.acceptance.map quote).bind unquote,
          assignee := (t.assignee.map quote).bind unquote,
          external_ref := (t.external_ref.map quote).bind unquote,
          parent := (t.parent.map quote).bind unquote,
          project := (t.project.map quote).bind unquote,
          category := (t.category.map quote).bind unquote,
          notes := notes }
    | _, _, _, _, _, _, _, _, _ => none) = some t
  rw [unquote_quote, unquote_quote, unquote_quote, unquote_quote,
    parseList_renderList t.deps hd, parseList_renderList t.links hl,
    parseNat_renderNat, parseInt_renderInt]
  simp only [hmapq]

/-! ## Line shape lemmas for the document framing -/

theorem renderNat_no_dash (n : Nat) : hasDashes (renderNat n) = false :=
  hasDashes_eq_false_of_all _ (fun c hc =>
    ne_of_isDigit c '-' (renderNat_digits n c hc) (by decide))

theorem renderNat_no_nl (n : Nat) : '\n' ∉ renderNat n := fun hm =>
  ne_of_isDigit _ '\n' (renderNat_digits n _ hm) (by decide) rfl

theorem renderNat_head_ne_dash (n : Nat) :
    ∀ c, (renderNat n).head? = some c → c ≠ '-' := by
  intro c hc
  rcases hr : renderNat n with _ | ⟨d, t⟩
  · exact absurd hr (renderNat_ne_nil n)
  · rw [hr] at hc
    have : d = c := Option.some.inj hc
    subst this
    exact ne_of_isDigit d '-' (renderNat_digits n d (by rw [hr]; simp)) (by decide)

theorem renderNat_getLast (n : Nat) :
    ∃ c, (renderNat n).getLast? = some c ∧ isWs c = false ∧ c ≠ '-' := by
  rcases hg : (renderNat n).getLast? with _ | c
  · rw [List.getLast?_eq_none_iff] at hg
    exact absurd hg (renderNat_ne_nil n)
  · have hm : c ∈ renderNat n := List.mem_of_mem_getLast? hg
    have hd := renderNat_digits n c hm
    exact ⟨c, rfl, isWs_of_isDigit c hd, ne_of_isDigit c '-' hd (by decide)⟩

theorem renderInt_no_dash (i : Int) : hasDashes (renderInt i) = false := by
  unfold renderInt
  by_cases hi : i < 0
  · rw [if_pos hi, hasDashes_cons]
    rw [renderNat_no_dash]
    rw [Bool.or_false]
    rcases hr : renderNat i.natAbs with _ | ⟨d, t⟩
    · rfl
    · have hd : d ≠ '-' :=
        ne_of_isDigit d '-' (renderNat_digits _ d (by rw [hr]; simp)) (by decide)
      rcases t with _ | ⟨e, t'⟩
      · simp [List.take]
      · simp [List.take, hd]
  · rw [if_neg hi]
    exact renderNat_no_dash _

theorem renderInt_no_nl (i : Int) : '\n' ∉ renderInt i := by
  unfold renderInt
  by_cases hi : i < 0
  · rw [if_pos hi]
    intro hm
    rcases List.mem_cons.mp hm with h | h
    · exact absurd h.symm (by decide)
    · exact renderNat_no_nl _ h
  · rw [if_neg hi]
    exact renderNat_no_nl _

theorem renderInt_getLast (i : Int) :
    ∃ c, (renderInt i).getLast? = some c ∧ isWs c = false ∧ c ≠ '-' := by
  unfold renderInt
  by_cases hi : i < 0
  · rw [if_pos hi]
    obtain ⟨c, hc, hw, hd⟩ := renderNat_getLast i.natAbs
    refine ⟨c, ?_, hw, hd⟩
    rcases hr : renderNat i.natAbs with _ | ⟨d, t⟩
    · exact absurd hr (renderNat_ne_nil _)
    · rw [hr] at hc
      rw [show ('-' :: (d :: t) : Str) = ['-'] ++ (d :: t) from rfl,
        List.getLast?_append, hc]
      rfl
  · rw [if_neg hi]
    exact renderNat_getLast _

theorem quote_no_nl (v : Str) (hv : '\n' ∉ v) : '\n' ∉ quote v := by
  intro hm
  rcases List.mem_cons.mp hm with h | h
  · exact absurd h.symm (by decide)
  · rcases List.mem_append.mp h with h | h
    · exact hv h
    · rcases List.mem_cons.mp h with h | h
      · exact absurd h.symm (by decide)
      · exact absurd h (List.not_mem_nil _)

theorem quote_no_dash (v : Str) (hv : hasDashes v = false) :
    hasDashes (quote v) = false := by
  show hasDashes ('"' :: (v ++ ['"'])) = false
  rw [hasDashes_cons_ne _ _ (by decide)]
  rw [hasDashes_append_of_head v ['"'] ?hh]
  case hh =>
    intro c hc
    have : '"' = c := Option.some.inj hc
    rw [← this]
    decide
  rw [hv]
  rfl

theorem quote_getLast (v : Str) :
    ∃ c, (quote v).getLast? = some c ∧ isWs c = false ∧ c ≠ '-' := by
  refine ⟨'"', ?_, by decide, by decide⟩
  rw [show quote v = ('"' :: v) ++ ['"'] by simp [quote]]
  exact List.getLast?_concat _

theorem quote_head_ne_dash (v : Str) : ∀ c, (quote v).head? = some c → c ≠ '-' := by
  intro c hc
  have : '"' = c := Option.some.inj hc
  rw [← this]
  decide

theorem mem_joinSep (sep : Str) (c : Char) :
    ∀ (xs : List Str), c ∈ joinSep sep xs → c ∈ sep ∨ ∃ x ∈ xs, c ∈ x := by
  intro xs
  induction xs with
  | nil => intro h; exact absurd h (List.not_mem_nil c)
  | cons x ys ih =>
    intro h
    rcases ys with _ | ⟨y, t⟩
    · exact Or.inr ⟨x, by simp, h⟩
    · rcases List.mem_append.mp h with h1 | h1
      · rcases List.mem_append.mp h1 with h2 | h2
        · exact Or.inr ⟨x, by simp, h2⟩
        · exact Or.inl h2
      · rcases ih h1 with h2 | ⟨z, hz, hcz⟩
        · exact Or.inl h2
        · exact Or.inr ⟨z, by simp [hz], hcz⟩

theorem hasDashes_joinSep_qsep (xs : List Str) (h : ∀ x ∈ xs, hasDashes x = false) :
    hasDashes (joinSep qsep xs) = false := by
  induction xs with
  | nil => rfl
  | cons x ys ih =>
    rcases ys with _ | ⟨y, t⟩
    · exact h x (by simp)
    · show hasDashes (x ++ qsep ++ joinSep qsep (y :: t)) = false
      rw [List.append_assoc]
      rw [hasDashes_append_of_head x _ ?hh]
      case hh =>
        intro c hc
        have : '"' = c := Option.some.inj hc
        rw [← this]
        decide
      rw [h x (by simp), Bool.false_or]
      show hasDashes ('"' :: ',' :: ' ' :: '"' :: joinSep qsep (y :: t)) = false
      rw [hasDashes_cons_ne _ _ (by decide), hasDashes_cons_ne _ _ (by decide),
        hasDashes_cons_ne _ _ (by decide), hasDashes_cons_ne _ _ (by decide)]
      exact ih (fun z hz => h z (by simp [hz]))

theorem renderList_no_dash (xs : List Str) (h : ∀ x ∈ xs, hasDashes x = false) :
    hasDashes (renderList xs) = false := by
  rcases xs with _ | ⟨x, ys⟩
  · rfl
  · show hasDashes ('[' :: '"' :: (joinSep qsep (x :: ys) ++ ['"', ']'])) = false
    rw [hasDashes_cons_ne _ _ (by decide), hasDashes_cons_ne _ _ (by decide)]
    rw [hasDashes_append_of_head _ ['"', ']'] ?hh]
    case hh =>
      intro c hc
      have : '"' = c := Option.some.inj hc
      rw [← this]
      decide
    rw [hasDashes_joinSep_qsep (x :: ys) h]
    rfl

theorem renderList_no_nl (xs : List Str) (h : ∀ x ∈ xs, '\n' ∉ x) :
    '\n' ∉ renderList xs := by
  rcases xs with _ | ⟨x, ys⟩
  · decide
  · intro hm
    rcases List.mem_cons.mp hm with h1 | h1
    · exact absurd h1.symm (by decide)
    · rcases List.mem_cons.mp h1 with h2 | h2
      · exact absurd h2.symm (by decide)
      · rcases List.mem_append.mp h2 with h3 | h3
        · rcases mem_joinSep qsep '\n' (x :: ys) h3 with h4 | ⟨z, hz, hcz⟩
          · exact absurd h4 (by decide)
          · exact h z hz hcz
        · exact absurd h3 (by decide)

theorem renderList_getLast (xs : List Str) :
    ∃ c, (renderList xs).getLast? = some c ∧ isWs c = false ∧ c ≠ '-' := by
  refine ⟨']', ?_, by decide, by decide⟩
  rcases xs with _ | ⟨x, ys⟩
  · decide
  · show ('[' :: '"' :: (joinSep qsep (x :: ys) ++ ['"', ']'])).getLast? = some ']'
    rw [show ('[' :: '"' :: (joinSep qsep (x :: ys) ++ ['"', ']']) : Str)
        = ('[' :: '"' :: (joinSep qsep (x :: ys) ++ ['"'])) ++ [']'] by simp]
    exact List.getLast?_concat _

theorem lineOk_key_val (k v : Str) (hk1 : '\n' ∉ k) (hkd : ∀ c ∈ k, c ≠ '-')
    (hv1 : '\n' ∉ v) (hv2 : hasDashes v = false)
    (hvl : ∃ c, v.getLast? = some c ∧ isWs c = false ∧ c ≠ '-') :
    ('\n' ∉ k ++ v) ∧ hasDashes (k ++ v) = false ∧
      (∃ c, (k ++ v).getLast? = some c ∧ isWs c = false ∧ c ≠ '-') := by
  refine ⟨?_, ?_, ?_⟩
  · intro hm
    rcases List.mem_append.mp hm with h | h
    · exact hk1 h
    · exact hv1 h
  · rw [hasDashes_append_all k v hkd]
    exact hv2
  · obtain ⟨c, hc, hw, hd⟩ := hvl
    exact ⟨c, by rw [List.getLast?_append, hc]; rfl, hw, hd⟩

theorem lineOk_note_ts (n : Nat) :
    ('\n' ∉ "- timestamp: ".toList ++ renderNat n) ∧
      hasDashes ("- timestamp: ".toList ++ renderNat n) = false ∧
      (∃ c, ("- timestamp: ".toList ++ renderNat n).getLast? = some c ∧
        isWs c = false ∧ c ≠ '-') := by
  refine ⟨?_, ?_, ?_⟩
  · intro hm
    rcases List.mem_append.mp hm with h | h
    · exact absurd h (by decide)
    · exact renderNat_no_nl n h
  · rw [hasDashes_append_of_head _ _ (renderNat_head_ne_dash n)]
    rw [show hasDashes ("- timestamp: ".toList) = false from by decide, Bool.false_or]
    exact renderNat_no_dash n
  · obtain ⟨c, hc, hw, hd⟩ := renderNat_getLast n
    exact ⟨c, by rw [List.getLast?_append, hc]; rfl, hw, hd⟩

theorem mem_optLine (l k : Str) (v : Option Str) (h : l ∈ optLine k v) :
    ∃ s, v = some s ∧ l = k ++ quote s := by
  cases v with
  | none => exact absurd h (List.not_mem_nil l)
  | some s =>
    simp only [optLine, List.mem_cons, List.not_mem_nil, or_false] at h
    exact ⟨s, rfl, h⟩

theorem mem_notesLines (l : Str) (v : Option (List Note)) (h : l ∈ notesLines v) :
    l = "notes:".toList ∨
      ∃ ns n, v = some ns ∧ n ∈ ns ∧
        (l = "- timestamp: ".toList ++ renderNat n.timestamp ∨
         l = "  content: ".toList ++ quote n.content) := by
  cases v with
  | none => exact absurd h (List.not_mem_nil l)
  | some ns =>
    rcases List.mem_cons.mp h with h1 | h1
    · exact Or.inl h1
    · rcases List.mem_flatMap.mp h1 with ⟨n, hn, hln⟩
      simp only [noteLines, List.mem_cons, List.not_mem_nil, or_false] at hln
      exact Or.inr ⟨ns, n, rfl, hn, hln⟩

theorem yamlLines_ok (t : Ticket) (h : okTicket t) :
    ∀ l ∈ yamlLines t, ('\n' ∉ l) ∧ hasDashes l = false ∧
      (∃ c, l.getLast? = some c ∧ isWs c = false ∧ c ≠ '-') := by
  obtain ⟨hid, htitle, hstatus, hty, hdeps, hlinks, ho1, ho2, ho3, ho4, ho5, ho6,
    ho7, ho8, hnts⟩ := h
  intro l hl
  unfold yamlLines at hl
  simp only [reqLine, List.mem_append, List.mem_cons, List.not_mem_nil, or_false] at hl
  rcases hl with
    (((((((((((((((hl | hl) | hl) | hl) | hl) | hl) | hl) | hl) | hl) | hl) | hl) | hl) | hl) | hl) | hl) | hl) | hl
  · subst hl
    exact lineOk_key_val _ _ (by decide) (by decide) (quote_no_nl _ hid.1)
      (quote_no_dash _ hid.2) (quote_getLast _)
  · subst hl
    exact lineOk_key_val _ _ (by decide) (by decide) (quote_no_nl _ htitle.1)
      (quote_no_dash _ htitle.2) (quote_getLast _)
  · subst hl
    exact lineOk_key_val _ _ (by decide) (by decide) (quote_no_nl _ hstatus.1)
      (quote_no_dash _ hstatus.2) (quote_getLast _)
  · subst hl
    exact lineOk_key_val _ _ (by decide) (by decide)
      (renderList_no_nl _ (fun x hx => ((hdeps x hx).1).1))
      (renderList_no_dash _ (fun x hx => ((hdeps x hx).1).2)) (renderList_getLast _)
  · subst hl
    exact lineOk_key_val _ _ (by decide) (by decide)
      (renderList_no_nl _ (fun x hx => ((hlinks x hx).1).1))
      (renderList_no_dash _ (fun x hx => ((hlinks x hx).1).2)) (renderList_getLast _)
  · subst hl
    exact lineOk_key_val _ _ (by decide) (by decide) (renderNat_no_nl _)
      (renderNat_no_dash _) (renderNat_getLast _)
  · subst hl
    exact lineOk_key_val _ _ (by decide) (by decide) (quote_no_nl _ hty.1)
      (quote_no_dash _ hty.2) (quote_getLast _)
  · subst hl
    exact lineOk_key_val _ _ (by decide) (by decide) (renderInt_no_nl _)
      (renderInt_no_dash _) (renderInt_getLast _)
  · obtain ⟨s, hv, hls⟩ := mem_optLine l _ _ hl
    subst hls
    rw [hv] at ho1
    exact lineOk_key_val _ _ (by decide) (by decide) (quote_no_nl _ ho1.1)
      (quote_no_dash _ ho1.2) (quote_getLast _)
  · obtain ⟨s, hv, hls⟩ := mem_optLine l _ _ hl
    subst hls
    rw [hv] at ho2
    exact lineOk_key_val _ _ (by decide) (by decide) (quote_no_nl _ ho2.1)
      (quote_no_dash _ ho2.2) (quote_getLast _)
  · obtain ⟨s, hv, hls⟩ := mem_optLine l _ _ hl
    subst hls
    rw [hv] at ho3
    exact lineOk_key_val _ _ (by decide) (by decide) (quote_no_nl _ ho3.1)
      (quote_no_dash _ ho3.2) (quote_getLast _)
  · obtain ⟨s, hv, hls⟩ := mem_optLine l _ _ hl
    subst hls
    rw [hv] at ho4
    exact lineOk_key_val _ _ (by decide) (by decide) (quote_no_nl _ ho4.1)
      (quote_no_dash _ ho4.2) (quote_getLast _)
  · obtain ⟨s, hv, hls⟩ := mem_optLine l _ _ hl
    subst hls
    rw [hv] at ho5
    exact lineOk_key_val _ _ (by decide) (by decide) (quote_no_nl _ ho5.1)
      (quote_no_dash _ ho5.2) (quote_getLast _)
  · obtain ⟨s, hv, hls⟩ := mem_optLine l _ _ hl
    subst hls
    rw [hv] at ho6
    exact lineOk_key_val _ _ (by decide) (by decide) (quote_no_nl _ ho6.1)
      (quote_no_dash _ ho6.2) (quote_getLast _)
  · obtain ⟨s, hv, hls⟩ := mem_optLine l _ _ hl
    subst hls
    rw [hv] at ho7
    exact lineOk_key_val _ _ (by decide) (by decide) (quote_no_nl _ ho7.1)
      (quote_no_dash _ ho7.2) (quote_getLast _)
  · obtain ⟨s, hv, hls⟩ := mem_optLine l _ _ hl
    subst hls
    rw [hv] at ho8
    exact lineOk_key_val _ _ (by decide) (by decide) (quote_no_nl _ ho8.1)
      (quote_no_dash _ ho8.2) (quote_getLast _)
  · rcases mem_notesLines l _ hl with h1 | ⟨ns, n, hv, hn, h1 | h1⟩
    · subst h1
      exact ⟨by decide, by decide, ⟨':', by decide, by decide, by decide⟩⟩
    · subst h1
      exact lineOk_note_ts n.timestamp
    · subst h1
      rw [hv] at hnts
      have hc := hnts n hn
      exact lineOk_key_val _ _ (by decide) (by decide) (quote_no_nl _ hc.1)
        (quote_no_dash _ hc.2) (quote_getLast _)

theorem yamlLines_cons (t : Ticket) :
    yamlLines t = ("id: ".toList ++ quote t.id) ::
      (reqLine ("title: ".toList) (quote t.title)
      ++ reqLine ("status: ".toList) (quote t.status)
      ++ reqLine ("deps: ".toList) (renderList t.deps)
      ++ reqLine ("links: ".toList) (renderList t.links)
      ++ reqLine ("created: ".toList) (renderNat t.created)
      ++ reqLine ("type: ".toList) (quote t.issue_type)
      ++ reqLine ("priority: ".toList) (renderInt t.priority)
      ++ optLine ("description: ".toList) t.description
      ++ optLine ("design: ".toList) t.design
      ++ optLine ("acceptance: ".toList) t.acceptance
      ++ optLine ("assignee: ".toList) t.assignee
      ++ optLine ("external_ref: ".toList) t.external_ref
      ++ optLine ("parent: ".toList) t.parent
      ++ optLine ("project: ".toList) t.project
      ++ optLine ("category: ".toList) t.category
      ++ notesLines t.notes) := rfl

theorem joinSep_ne_nil (sep x : Str) (rest : List Str) (hx : x ≠ []) :
    joinSep sep (x :: rest) ≠ [] := by
  cases rest with
  | nil => exact hx
  | cons y t =>
    show x ++ sep ++ joinSep sep (y :: t) ≠ []
    simp [hx]

theorem joinSep_head? (sep x : Str) (rest : List Str) (hx : x ≠ []) :
    (joinSep sep (x :: rest)).head? = x.head? := by
  cases rest with
  | nil => rfl
  | cons y t =>
    show (x ++ sep ++ joinSep sep (y :: t)).head? = x.head?
    rw [List.append_assoc, List.head?_append]
    rcases x with _ | ⟨c, x'⟩
    · exact absurd rfl hx
    · rfl

theorem joinSep_getLast?_mem (sep : Str) :
    ∀ (lines : List Str), lines ≠ [] → (∀ l ∈ lines, l ≠ []) →
      ∃ l ∈ lines, (joinSep sep lines).getLast? = l.getLast? := by
  intro lines
  induction lines with
  | nil => intro h; exact absurd rfl h
  | cons x ys ih =>
    intro _ hne
    rcases ys with _ | ⟨y, t⟩
    · exact ⟨x, by simp, rfl⟩
    · obtain ⟨l, hlmem, hleq⟩ := ih (by simp) (fun z hz => hne z (by simp [hz]))
      refine ⟨l, by simp [List.mem_cons]; right; simpa using hlmem, ?_⟩
      show (x ++ sep ++ joinSep sep (y :: t)).getLast? = l.getLast?
      rw [List.getLast?_append]
      have hJ : joinSep sep (y :: t) ≠ [] := joinSep_ne_nil sep y t (hne y (by simp))
      rcases hg : (joinSep sep (y :: t)).getLast? with _ | c
      · rw [List.getLast?_eq_none_iff] at hg
        exact absurd hg hJ
      · rw [hg] at hleq
        rw [← hleq]
        rfl

theorem hasDashes_joinSep_nl (lines : List Str)
    (h : ∀ l ∈ lines, hasDashes l = false) :
    hasDashes (joinSep ['\n'] lines) = false := by
  induction lines with
  | nil => rfl
  | cons x ys ih =>
    rcases ys with _ | ⟨y, t⟩
    · exact h x (by simp)
    · show hasDashes (x ++ ['\n'] ++ joinSep ['\n'] (y :: t)) = false
      rw [List.append_assoc]
      rw [hasDashes_append_of_head x _ ?hh]
      case hh =>
        intro c hc
        have : '\n' = c := Option.some.inj hc
        rw [← this]
        decide
      rw [h x (by simp), Bool.false_or]
      show hasDashes ('\n' :: joinSep ['\n'] (y :: t)) = false
      rw [hasDashes_cons_ne _ _ (by decide)]
      exact ih (fun z hz => h z (by simp [hz]))

theorem dropWhile_eq_self_of_head (p : Char → Bool) (s : Str)
    (h : ∀ c, s.head? = some c → p c = false) : s.dropWhile p = s := by
  cases s with
  | nil => rfl
  | cons c t =>
    rw [List.dropWhile_cons]
    simp [h c rfl]

theorem rdropWhile_eq_self_of_getLast (p : Char → Bool) (s : Str)
    (h : ∀ c, s.getLast? = some c → p c = false) : s.rdropWhile p = s := by
  apply List.rdropWhile_eq_self_iff.mpr
  intro hl
  rw [h (s.getLast hl) (List.getLast?_eq_getLast s hl)]
  simp

/-! ## The round trip -/

theorem encodeYaml_facts (t : Ticket) (h : okTicket t) :
    rustTrim (encodeYaml t) = encodeYaml t ∧
    hasDashes (encodeYaml t) = false ∧
    (∃ c, (encodeYaml t).getLast? = some c ∧ isWs c = false ∧ c ≠ '-') ∧
    splitOnChar '\n' (encodeYaml t) = yamlLines t := by
  have hok := yamlLines_ok t h
  have hne : yamlLines t ≠ [] := by rw [yamlLines_cons]; simp
  have hlinesne : ∀ l ∈ yamlLines t, l ≠ [] := by
    intro l hl
    obtain ⟨c, hc, _, _⟩ := (hok l hl).2.2
    intro hnil
    rw [hnil] at hc
    exact Option.noConfusion hc
  have hhead : (encodeYaml t).head? = some 'i' := by
    show (joinSep ['\n'] (yamlLines t)).head? = some 'i'
    rw [yamlLines_cons, joinSep_head? ['\n'] _ _ (by simp)]
    rw [List.head?_append]
    rfl
  have hlast : ∃ c, (encodeYaml t).getLast? = some c ∧ isWs c = false ∧ c ≠ '-' := by
    obtain ⟨l, hlmem, hleq⟩ := joinSep_getLast?_mem ['\n'] (yamlLines t) hne hlinesne
    obtain ⟨c, hc, hw, hd⟩ := (hok l hlmem).2.2
    exact ⟨c, by rw [show (encodeYaml t).getLast?
      = (joinSep ['\n'] (yamlLines t)).getLast? from rfl, hleq, hc], hw, hd⟩
  refine ⟨?_, ?_, hlast, ?_⟩
  · unfold rustTrim
    rw [dropWhile_eq_self_of_head isWs _ ?hh]
    case hh =>
      intro c hc
      rw [hhead] at hc
      rw [← Option.some.inj hc]
      decide
    apply rdropWhile_eq_self_of_getLast
    intro c hc
    obtain ⟨c2, hc2, hw2, _⟩ := hlast
    rw [hc2] at hc
    rw [← Option.some.inj hc]
    exact hw2
  · exact hasDashes_joinSep_nl (yamlLines t) (fun l hl => (hok l hl).2.1)
  · exact splitOnChar_joinSep '\n' (yamlLines t) hne (fun l hl => (hok l hl).1)

/-! ## Filesystem observation lemmas -/

theorem ensure_eq_append (fs : FS) : ∃ ds : FS,
    ensure_status_directories fs = fs ++ ds ∧
      ∀ e ∈ ds, ∃ s ∈ statuses, e = Entry.dir [s] := by
  unfold ensure_status_directories
  suffices h : ∀ (L : List Str) (fs0 : FS), (∀ s ∈ L, s ∈ statuses) →
      ∃ ds : FS, L.foldl (fun acc s =>
          if entryExists acc [s] then acc else acc ++ [.dir [s]]) fs0 = fs0 ++ ds ∧
        ∀ e ∈ ds, ∃ s ∈ statuses, e = Entry.dir [s] by
    exact h statuses fs (fun s hs => hs)
  intro L
  induction L with
  | nil => intro fs0 _; exact ⟨[], by simp, by simp⟩
  | cons s L' ih =>
    intro fs0 hmem
    by_cases hex : entryExists fs0 [s]
    · obtain ⟨ds, hds, hprop⟩ := ih fs0 (fun z hz => hmem z (by simp [hz]))
      exact ⟨ds, by simpa [hex] using hds, hprop⟩
    · obtain ⟨ds, hds, hprop⟩ := ih (fs0 ++ [.dir [s]]) (fun z hz => hmem z (by simp [hz]))
      refine ⟨Entry.dir [s] :: ds, ?_, ?_⟩
      · simp only [List.foldl_cons, if_neg hex]
        rw [hds]
        simp
      · intro e he
        rcases List.mem_cons.mp he with he1 | he1
        · exact ⟨s, hmem s (by simp), he1⟩
        · exact hprop e he1

theorem readFile_append_nonfiles (fs ds : FS) (p : List Str)
    (h : ∀ e ∈ ds, ∀ q c, e = Entry.file q c → q ≠ p) :
    readFile (fs ++ ds) p = readFile fs p := by
  unfold readFile
  rw [List.findSome?_append]
  have hnone : List.findSome? (fun e =>
      match e with
      | Entry.file q c => if q = p then some c else none
      | Entry.dir _ => none) ds = none := by
    rw [List.findSome?_eq_none_iff]
    intro e he
    cases e with
    | file q c =>
      have hqp := h (Entry.file q c) he q c rfl
      simp [hqp]
    | dir q => rfl
  rw [hnone, Option.or_none]

theorem entryExists_append_none (fs ds : FS) (p : List Str)
    (h : ∀ e ∈ ds, e.path ≠ p) :
    entryExists (fs ++ ds) p = entryExists fs p := by
  unfold entryExists
  rw [List.any_append]
  have hfalse : ds.any (fun e => decide (e.path = p)) = false := by
    rw [List.any_eq_false]
    intro e he
    simp [h e he]
  rw [hfalse, Bool.or_false]

theorem dirExists_append_none (fs ds : FS) (p : List Str)
    (h : ∀ e ∈ ds, e.path ≠ p) :
    dirExists (fs ++ ds) p = dirExists fs p := by
  unfold dirExists
  rw [List.any_append]
  have hfalse : ds.any (fun e =>
      match e with
      | Entry.dir q => decide (q = p)
      | Entry.file _ _ => false) = false := by
    rw [List.any_eq_false]
    intro e he
    cases e with
    | dir q =>
      have hqp : q ≠ p := h (Entry.dir q) he
      simp [hqp]
    | file q c => simp
  rw [hfalse, Bool.or_false]

theorem readDir_append (fs ds : FS) (d : List Str) :
    readDir (fs ++ ds) d = readDir fs d ++ readDir ds d :=
  List.filter_append _ _

theorem rootFind_dirs (ds : FS) (pred : Entry → Bool)
    (hds : ∀ e ∈ ds, ∃ s ∈ statuses, e = Entry.dir [s])
    (hpred : ∀ e, pred e = true → ".md".toList.isSuffixOf (fname e) = true) :
    (readDir ds []).find? pred = none := by
  rw [List.find?_eq_none]
  intro e he
  have hmem : e ∈ ds := List.mem_of_mem_filter he
  obtain ⟨s, hs, hse⟩ := hds e hmem
  intro hp
  have hsuf := hpred e hp
  rw [hse] at hsuf
  have hfn : fname (Entry.dir [s]) = s := rfl
  rw [hfn] at hsuf
  have hnomd : ∀ z ∈ statuses, ".md".toList.isSuffixOf z = false := by decide
  rw [hnomd s hs] at hsuf
  exact Bool.noConfusion hsuf

theorem mdname_ne_status (id : Str) (s : Str) (hs : s ∈ statuses) :
    s ≠ id ++ ".md".toList := by
  intro he
  have hsuf : ".md".toList.isSuffixOf s = true := by
    rw [he, List.isSuffixOf_iff_suffix]
    exact List.suffix_append id _
  have hnomd : ∀ z ∈ statuses, ".md".toList.isSuffixOf z = false := by decide
  rw [hnomd s hs] at hsuf
  exact Bool.noConfusion hsuf

theorem ticket_path_append_aux (fs ds : FS) (id : Str)
    (h1 : ∀ e ∈ ds, e.path ≠ [id ++ ".md".toList])
    (h2 : (readDir ds []).find?
        (fun e => id.isPrefixOf (fname e) && ".md".toList.isSuffixOf (fname e)) = none) :
    ticket_path (fs ++ ds) id = ticket_path fs id := by
  simp only [ticket_path]
  rw [entryExists_append_none fs ds _ h1, readDir_append, List.find?_append, h2,
    Option.or_none]

theorem ticket_path_append_statusdirs (fs ds : FS) (id : Str)
    (hds : ∀ e ∈ ds, ∃ s ∈ statuses, e = Entry.dir [s]) :
    ticket_path (fs ++ ds) id = ticket_path fs id := by
  apply ticket_path_append_aux
  · intro e he
    obtain ⟨s, hs, hse⟩ := hds e he
    rw [hse]
    show ([s] : List Str) ≠ [id ++ ".md".toList]
    intro hq
    exact mdname_ne_status id s hs (List.cons.inj hq).1
  · apply rootFind_dirs ds _ hds
    intro e hp
    exact (Bool.and_eq_true_iff.mp hp).2

theorem ticket_path_ensure (fs : FS) (id : Str) :
    ticket_path (ensure_status_directories fs) id = ticket_path fs id := by
  obtain ⟨ds, hds, hprop⟩ := ensure_eq_append fs
  rw [hds]
  exact ticket_path_append_statusdirs fs ds id hprop

theorem readFile_ensure (fs : FS) (p : List Str) :
    readFile (ensure_status_directories fs) p = readFile fs p := by
  obtain ⟨ds, hds, hprop⟩ := ensure_eq_append fs
  rw [hds]
  apply readFile_append_nonfiles
  intro e he q c hq
  obtain ⟨s, _, hse⟩ := hprop e he
  rw [hse] at hq
  exact Entry.noConfusion hq

theorem readFile_writeRaw2_other (fs : FS) (s n c : Str) (p : List Str)
    (hp : p.length = 1) :
    readFile (writeRaw fs [s, n] c) p = readFile fs p := by
  have hne : ¬(p = [s, n]) := by
    intro h2
    rw [h2] at hp
    simp at hp
  unfold writeRaw
  by_cases hex : fileExists fs [s, n] = true
  · rw [if_pos hex]
    unfold readFile
    rw [List.findSome?_map]
    congr 1
    funext e
    simp only [Function.comp]
    cases e with
    | file q c0 =>
      by_cases hq : q = [s, n]
      · have hqp2 : ¬([s, n] = p) := fun h2 => hne h2.symm
        simp [hq, hqp2]
      · simp [hq]
    | dir q => rfl
  · rw [if_neg hex]
    apply readFile_append_nonfiles
    intro e he q c2 hq
    simp only [List.mem_cons, List.not_mem_nil, or_false] at he
    rw [he] at hq
    injection hq with hq1 hq2
    rw [← hq1]
    exact fun h2 => hne h2.symm

theorem entryExists_writeRaw2_other (fs : FS) (s n c : Str) (p : List Str)
    (hp : p.length = 1) :
    entryExists (writeRaw fs [s, n] c) p = entryExists fs p := by
  unfold writeRaw
  by_cases hex : fileExists fs [s, n] = true
  · rw [if_pos hex]
    unfold entryExists
    rw [List.any_map]
    congr 1
    funext e
    simp only [Function.comp]
    cases e with
    | file q c0 =>
      by_cases hq : q = [s, n]
      · simp [hq, Entry.path]
      · simp [hq, Entry.path]
    | dir q => rfl
  · rw [if_neg hex]
    apply entryExists_append_none
    intro e he
    simp only [List.mem_cons, List.not_mem_nil, or_false] at he
    rw [he]
    show ([s, n] : List Str) ≠ p
    intro hc
    rw [← hc] at hp
    simp at hp

theorem ticket_path_writeRaw2 (fs : FS) (s n c : Str) (id : Str) :
    ticket_path (writeRaw fs [s, n] c) id = ticket_path fs id := by
  simp only [ticket_path]
  rw [entryExists_writeRaw2_other fs s n c _ (by simp)]
  have hscan : (((readDir (writeRaw fs [s, n] c) []).find?
        (fun e => id.isPrefixOf (fname e) && ".md".toList.isSuffixOf (fname e))).map
      Entry.path)
      = (((readDir fs []).find?
        (fun e => id.isPrefixOf (fname e) && ".md".toList.isSuffixOf (fname e))).map
      Entry.path) := by
    unfold writeRaw
    by_cases hex : fileExists fs [s, n] = true
    · rw [if_pos hex]
      unfold readDir
      rw [List.filter_map, List.find?_map, Option.map_map]
      congr 1
      · funext e
        cases e with
        | file q c0 =>
          by_cases hq : q = [s, n]
          · simp [Function.comp, hq, Entry.path]
          · simp [Function.comp, hq, Entry.path]
        | dir q => rfl
      · congr 1
        · funext e
          cases e with
          | file q c0 =>
            by_cases hq : q = [s, n]
            · simp [Function.comp, hq, fname, Entry.path]
            · simp [Function.comp, hq, fname, Entry.path]
          | dir q => rfl
        · congr 1
          funext e
          cases e with
          | file q c0 =>
            by_cases hq : q = [s, n]
            · simp [Function.comp, hq, Entry.path]
            · simp [Function.comp, hq, Entry.path]
          | dir q => rfl
    · rw [if_neg hex]
      have h9 : readDir [Entry.file [s, n] c] [] = [] := by
        simp [readDir, Entry.path]
      rw [readDir_append, h9, List.append_nil]
  rw [hscan]

theorem ticket_path_len1 (fs : FS) (id : Str) : ∃ p0, ticket_path fs id = [p0] := by
  simp only [ticket_path]
  by_cases hex : entryExists fs [id ++ ".md".toList] = true
  · rw [if_pos hex]
    exact ⟨id ++ ".md".toList, rfl⟩
  · rw [if_neg hex]
    cases hf : (readDir fs []).find?
        (fun e => id.isPrefixOf (fname e) && ".md".toList.isSuffixOf (fname e)) with
    | none => exact ⟨id ++ ".md".toList, rfl⟩
    | some e =>
      have hmem : e ∈ readDir fs [] := List.mem_of_find?_eq_some hf
      unfold readDir at hmem
      have hfilter := List.of_mem_filter hmem
      have hlen : e.path.length = 1 := by
        have h2 := (Bool.and_eq_true_iff.mp hfilter).1
        simpa using h2
      cases hpath : e.path with
      | nil =>
        rw [hpath] at hlen
        simp at hlen
      | cons x rest =>
        cases rest with
        | nil =>
          refine ⟨x, ?_⟩
          simp [hpath]
        | cons y rest2 =>
          rw [hpath] at hlen
          simp at hlen

theorem save_ticket_state (fs : FS) (t : Ticket) :
    (save_ticket fs t).1 = ensure_status_directories fs ∨
    (save_ticket fs t).1 = writeRaw (ensure_status_directories fs)
      [t.status, t.id ++ ".md".toList] (encodeDoc t) := by
  simp only [save_ticket, writeFile]
  by_cases h1 : dirExists (ensure_status_directories fs)
      [t.status, t.id ++ ".md".toList] = true
  · rw [if_pos h1]
    exact Or.inl rfl
  · rw [if_neg h1]
    by_cases h2 : dirExists (ensure_status_directories fs) [t.status] = true
    · rw [if_pos h2]
      exact Or.inr rfl
    · rw [if_neg h2]
      exact Or.inl rfl

theorem load_ticket_save (fs : FS) (t : Ticket) (id : Str) :
    load_ticket (save_ticket fs t).1 id = load_ticket fs id := by
  obtain ⟨p0, hp0⟩ := ticket_path_len1 fs id
  rcases save_ticket_state fs t with hst | hst
  · unfold load_ticket
    rw [hst, ticket_path_ensure, hp0, readFile_ensure]
  · unfold load_ticket
    rw [hst, ticket_path_writeRaw2, ticket_path_ensure, hp0,
      readFile_writeRaw2_other _ _ _ _ _ (by simp), readFile_ensure]

theorem entryExists_ensure (fs : FS) (s : Str) (hs : s ∈ statuses) :
    entryExists (ensure_status_directories fs) [s] = true := by
  unfold ensure_status_directories
  suffices h : ∀ (L : List Str) (fs0 : FS), s ∈ L ∨ entryExists fs0 [s] = true →
      entryExists (L.foldl (fun acc z =>
        if entryExists acc [z] then acc else acc ++ [.dir [z]]) fs0) [s] = true by
    exact h statuses fs (Or.inl hs)
  intro L
  induction L with
  | nil =>
    intro fs0 h0
    rcases h0 with h0 | h0
    · exact absurd h0 (List.not_mem_nil s)
    · exact h0
  | cons z L2 ih =>
    intro fs0 h0
    simp only [List.foldl_cons]
    by_cases hz : entryExists fs0 [z] = true
    · rw [if_pos hz]
      rcases h0 with h0 | h0
      · rcases List.mem_cons.mp h0 with h1 | h1
        · subst h1
          exact ih fs0 (Or.inr hz)
        · exact ih fs0 (Or.inl h1)
      · exact ih fs0 (Or.inr h0)
    · rw [if_neg hz]
      rcases h0 with h0 | h0
      · rcases List.mem_cons.mp h0 with h1 | h1
        · subst h1
          refine ih _ (Or.inr ?_)
          unfold entryExists
          rw [List.any_append]
          simp [Entry.path]
        · exact ih _ (Or.inl h1)
      · refine ih _ (Or.inr ?_)
        unfold entryExists at h0 ⊢
        rw [List.any_append, h0]
        rfl

theorem fileExists_ensure (fs : FS) (p : List Str) :
    fileExists (ensure_status_directories fs) p = fileExists fs p := by
  unfold fileExists
  rw [readFile_ensure]

theorem fileExists_of_mem (fs : FS) (q : List Str) (c : Str)
    (h : Entry.file q c ∈ fs) : fileExists fs q = true := by
  unfold fileExists readFile
  induction fs with
  | nil => exact absurd h (List.not_mem_nil _)
  | cons e t ih =>
    rw [List.findSome?_cons]
    rcases List.mem_cons.mp h with h1 | h1
    · rw [← h1]
      simp
    · cases hfe : (match e with
        | Entry.file q2 c2 => if q2 = q then some c2 else none
        | Entry.dir _ => none) with
      | some b => simp
      | none => simpa using ih h1

theorem dirExists_of_mem (fs : FS) (q : List Str) (h : Entry.dir q ∈ fs) :
    dirExists fs q = true := by
  unfold dirExists
  rw [List.any_eq_true]
  exact ⟨Entry.dir q, h, by simp⟩

theorem dirExists_of_entry_not_file (fs : FS) (p : List Str)
    (he : entryExists fs p = true) (hf : fileExists fs p = false) :
    dirExists fs p = true := by
  unfold entryExists at he
  rw [List.any_eq_true] at he
  obtain ⟨e, hmem, hp⟩ := he
  cases e with
  | file q c =>
    exfalso
    have hq : q = p := by simpa using hp
    have hfq : fileExists fs q = true := fileExists_of_mem fs q c hmem
    rw [hq, hf] at hfq
    exact Bool.noConfusion hfq
  | dir q =>
    have hq : q = p := by simpa using hp
    have hd := dirExists_of_mem fs q hmem
    rw [hq] at hd
    exact hd

theorem dirExists_ensure_len2 (fs : FS) (p : List Str) (hp : p.length = 2) :
    dirExists (ensure_status_directories fs) p = dirExists fs p := by
  obtain ⟨ds, hds, hprop⟩ := ensure_eq_append fs
  rw [hds]
  apply dirExists_append_none
  intro e he
  obtain ⟨s, _, hse⟩ := hprop e he
  rw [hse]
  show ([s] : List Str) ≠ p
  intro hc
  rw [← hc] at hp
  simp at hp

theorem findSome?_overwrite_self (fs : FS) (p : List Str) (c : Str)
    (hex : (List.findSome? (fun e =>
      match e with
      | Entry.file q c2 => if q = p then some c2 else none
      | Entry.dir _ => none) fs).isSome = true) :
    List.findSome? (fun e =>
      match e with
      | Entry.file q c2 => if q = p then some c2 else none
      | Entry.dir _ => none) (fs.map (fun e =>
        match e with
        | Entry.file q c0 => if q = p then Entry.file q c else Entry.file q c0
        | Entry.dir q => Entry.dir q)) = some c := by
  induction fs with
  | nil => simp at hex
  | cons e t ih =>
    cases e with
    | file q c0 =>
      by_cases hq : q = p
      · rw [List.map_cons, List.findSome?_cons]
        simp [hq]
      · rw [List.map_cons, List.findSome?_cons]
        rw [List.findSome?_cons] at hex
        simp only [if_neg hq] at hex ⊢
        exact ih hex
    | dir q =>
      rw [List.map_cons, List.findSome?_cons]
      rw [List.findSome?_cons] at hex
      exact ih (by simpa using hex)

theorem readFile_writeRaw_self (fs : FS) (p : List Str) (c : Str) :
    readFile (writeRaw fs p c) p = some c := by
  unfold writeRaw
  by_cases hex : fileExists fs p = true
  · rw [if_pos hex]
    unfold fileExists readFile at hex
    unfold readFile
    exact findSome?_overwrite_self fs p c hex
  · rw [if_neg hex]
    unfold readFile
    rw [List.findSome?_append]
    have hnone : List.findSome? (fun e =>
        match e with
        | Entry.file q c2 => if q = p then some c2 else none
        | Entry.dir _ => none) fs = none := by
      unfold fileExists readFile at hex
      cases ho : List.findSome? (fun e =>
          match e with
          | Entry.file q c2 => if q = p then some c2 else none
          | Entry.dir _ => none) fs with
      | none => rfl
      | some v =>
        rw [ho] at hex
        simp at hex
    rw [hnone]
    simp

theorem save_ticket_success (fs : FS) (t : Ticket)
    (h1 : fileExists fs [t.status] = false)
    (hsmem : t.status ∈ statuses)
    (h2 : dirExists fs [t.status, t.id ++ ".md".toList] = false) :
    save_ticket fs t = (writeRaw (ensure_status_directories fs)
      [t.status, t.id ++ ".md".toList] (encodeDoc t), none) := by
  have hdir2 : dirExists (ensure_status_directories fs)
      [t.status, t.id ++ ".md".toList] = false := by
    rw [dirExists_ensure_len2 fs _ (by simp)]
    exact h2
  have hopen : dirExists (ensure_status_directories fs) [t.status] = true := by
    apply dirExists_of_entry_not_file
    · exact entryExists_ensure fs t.status hsmem
    · rw [fileExists_ensure]
      exact h1
  simp only [save_ticket, writeFile]
  rw [hdir2, hopen]
  simp

/-! ## Claim theorems: the resolution, listing, cascade and invariant bugs -/

/-- C1: the claim states that closing `A` in a store where `B` is blocked
with `A` among its deps leaves `B` ready, with `A` removed from its deps, its
document persisted under `ready` and the `blocked` copy deleted, while `A`'s
file resides under `closed`.  In the code the cascade re-loads every listed
ticket through the flat-path `ticket_path`, which cannot resolve tickets
stored under status directories, so `B` is skipped: the transition succeeds
and `A` moves under `closed`, but `B` is untouched — its document still sits
under `blocked`, unchanged (status `blocked`, deps `[A]`), and nothing exists
under `ready`. -/
theorem c1_cascade_not_performed :
    (move_ticket_to_status fsC "A".toList "closed".toList).2 = none ∧
    fileExists (move_ticket_to_status fsC "A".toList "closed".toList).1
      ["closed".toList, "A.md".toList] = true ∧
    fileExists (move_ticket_to_status fsC "A".toList "closed".toList).1
      ["A.md".toList] = false ∧
    readFile (move_ticket_to_status fsC "A".toList "closed".toList).1
      ["blocked".toList, "B.md".toList] = some (encodeDoc tB) ∧
    fileExists (move_ticket_to_status fsC "A".toList "closed".toList).1
      ["ready".toList, "B.md".toList] = false := by decide

/-- C2: the claim states every reachable store keeps exactly one file per
ticket id, under the directory of its current status.  `update_status` — the
transition every caller invokes — loads, saves the updated document under the
new status directory, and never deletes the previous file: transitioning the
flat-resident ticket `t` to `in_progress` succeeds and leaves both the old
root file `t.md` (old content) and `in_progress/t.md`, two on-disk files for
one id, the old one not under its status directory. -/
theorem c2_transition_leaves_old_copy :
    (update_status fsR "t".toList "in_progress".toList).2 = none ∧
    readFile (update_status fsR "t".toList "in_progress".toList).1 ["t.md".toList]
      = some (encodeDoc tOpen) ∧
    fileExists (update_status fsR "t".toList "in_progress".toList).1
      ["in_progress".toList, "t.md".toList] = true := by decide

/-- C3: the claim states that when no hint is given, resolution repeats the
exact-then-prefix search across all seven status directories and only falls
back to the non-existent exact path when none matches.  The code's
`ticket_path` searches only the store root: with the sole ticket stored at
`open/t.md`, resolving `t` returns the non-existent root path `t.md` instead
of the status-directory match, and loading fails. -/
theorem c3_resolution_skips_status_dirs :
    ticket_path fs0 "t".toList = ["t.md".toList] ∧
    fileExists fs0 ["t.md".toList] = false ∧
    fileExists fs0 ["open".toList, "t.md".toList] = true ∧
    load_ticket fs0 "t".toList = .error .notFound := by decide

/-- C4: the claim states `list()` returns exactly the decodable tickets under
the seven status directories, sorted by `created` descending.  The code
enumerates the status directories but then re-loads each entry by its stem
through the flat-path `ticket_path`, which fails for organized tickets, and
the failure is silently skipped: on a store whose single ticket is a
perfectly decodable document under `open`, the listing is empty. -/
theorem c4_list_misses_organized_tickets :
    decodeDoc (encodeDoc tOpen) = .ok tOpen ∧
    (list_tickets fs0).2 = [] := by decide

/-- C5 (counterexample): decode after encode is claimed to reproduce every
ticket; for a ticket whose title contains `---` the document split
`splitn(3, "---")` cuts inside the metadata block and decoding fails. -/
theorem c5_roundtrip_fails_on_dashes :
    decodeDoc (encodeDoc tBad) ≠ .ok tBad := by decide

set_option maxHeartbeats 2000000

/-- C5 (amended): decode after encode reproduces every present field and
keeps absent optional fields absent, for every ticket whose text fields are
single-line scalars free of the `---` block-separator marker (list elements
also free of the double quote used by the element separator). -/
theorem c5_roundtrip_amended (t : Ticket) (h : okTicket t) :
    decodeDoc (encodeDoc t) = .ok t := by
  obtain ⟨htrim, hdash, hlast, hsplitc⟩ := encodeYaml_facts t h
  have hd : ∀ d ∈ t.deps, '"' ∉ d := fun d hd2 => (h.2.2.2.2.1 d hd2).2
  have hlk : ∀ x ∈ t.links, '"' ∉ x := fun x hx => (h.2.2.2.2.2.1 x hx).2
  have l1 : "---\n".toList = dashes ++ ['\n'] := by decide
  have l2 : "---\n\n# ".toList = dashes ++ "\n\n# ".toList := by decide
  have hdoc : encodeDoc t = dashes ++ ('\n' :: encodeYaml t) ++ dashes ++
      ("\n\n# ".toList ++ (t.title ++ (['\n'] ++ (bodyDesc t.description
        ++ bodyNotes t.notes)))) := by
    unfold encodeDoc
    rw [htrim, l1, l2]
    simp only [List.append_assoc, List.cons_append, List.nil_append]
  have hYdash : hasDashes ('\n' :: encodeYaml t) = false := by
    rw [hasDashes_cons_ne _ _ (by decide)]
    exact hdash
  have hYlast : ('\n' :: encodeYaml t).getLast? ≠ some '-' := by
    obtain ⟨c, hc, _, hdn⟩ := hlast
    rw [show ('\n' :: encodeYaml t : Str) = ['\n'] ++ encodeYaml t from rfl,
      List.getLast?_append, hc]
    intro he
    exact hdn (Option.some.inj he)
  have htrim2 : rustTrim ('\n' :: encodeYaml t) = encodeYaml t := by
    unfold rustTrim
    rw [List.dropWhile_cons, if_pos (by decide)]
    exact htrim
  have hsplit := split3_eq ('\n' :: encodeYaml t)
      ("\n\n# ".toList ++ (t.title ++ (['\n'] ++ (bodyDesc t.description
        ++ bodyNotes t.notes)))) hYdash hYlast
  have hparse : yamlParse (encodeYaml t) = some t := by
    unfold yamlParse
    rw [hsplitc]
    exact yamlParseLines_yamlLines t hd hlk
  unfold decodeDoc
  rw [hdoc, hsplit]
  simp [htrim2, hparse]

/-- C5 witness: the amended round trip at a ticket exercising every field
shape (deps, links, notes, negative priority, a mix of set and unset optional
fields). -/
theorem c5_roundtrip_amended_witness : decodeDoc (encodeDoc tNice) = .ok tNice :=
  c5_roundtrip_amended tNice (by decide)

/-- C6 (counterexample): the claim states add-dependency followed by
remove-dependency leaves the ticket's deps list exactly as before.  On the
flat-resident ticket the add saves a copy under `open` with the new
dependency while the remove re-loads the stale root copy and removes
nothing: afterwards the store persists two deps lists for `t` — the original
empty one and one still containing `x`. -/
theorem c6_pair_changes_persisted_deps :
    (add_dependency fsR "t".toList "x".toList).2 = none ∧
    (remove_dependency (add_dependency fsR "t".toList "x".toList).1
      "t".toList "x".toList).2 = none ∧
    persistedDepsLists fsR "t".toList = [[]] ∧
    persistedDepsLists fsPair "t".toList = [[], ["x".toList]] := by decide

/-- C7 (counterexample): the claim states a transition to the current status
performs no file write and leaves the directory listing unchanged.
`update_status` — the transition the CLI invokes — has no such check: asked
to set the flat-resident open ticket to `open`, it succeeds and writes a new
file `open/t.md`, changing the listing. -/
theorem c7_update_status_writes_on_noop :
    (update_status fsR "t".toList "open".toList).2 = none ∧
    fileExists fsR ["open".toList, "t.md".toList] = false ∧
    fileExists (update_status fsR "t".toList "open".toList).1
      ["open".toList, "t.md".toList] = true := by decide

/-- C8 (counterexample): the claim states any transition to an out-of-enum
status fails with InvalidStatus.  `update_status` loads before validating,
and loading resolves through the flat-path `ticket_path`: for a ticket stored
under its status directory the call fails with the load error instead, and
the validity check is never reached. -/
theorem c8_invalid_status_not_reported :
    update_status fs0 "t".toList "bogus".toList = (fs0, some Err.notFound) := by decide

/-- C6 (amended): for every store, id and dependency, add-dependency followed
by remove-dependency of the same edge leaves the ticket observed through
`load_ticket` — in particular its deps list — unchanged: both operations
either leave the store untouched or save through `save_ticket`, and a save
(status-directory write plus directory creation) never disturbs the
flat-root resolution that `load_ticket` reads. -/
theorem c6_amended_load_view_unchanged (fs : FS) (id d : Str) :
    ((load_ticket (remove_dependency (add_dependency fs id d).1 id d).1 id).toOption.map
      Ticket.deps)
      = (load_ticket fs id).toOption.map Ticket.deps := by
  have h1 : load_ticket (add_dependency fs id d).1 id = load_ticket fs id := by
    simp only [add_dependency]
    cases hl : load_ticket fs id with
    | error e => exact hl
    | ok t =>
      show load_ticket (if d ∈ t.deps then ((fs, none) : FS × Option Err)
        else save_ticket fs { t with deps := t.deps ++ [d] }).1 id = Except.ok t
      by_cases hd : d ∈ t.deps
      · rw [if_pos hd]
        exact hl
      · rw [if_neg hd, load_ticket_save]
        exact hl
  have h2 : load_ticket (remove_dependency (add_dependency fs id d).1 id d).1 id
      = load_ticket (add_dependency fs id d).1 id := by
    simp only [remove_dependency]
    cases hl : load_ticket (add_dependency fs id d).1 id with
    | error e => exact hl
    | ok t =>
      show load_ticket (if d ∈ t.deps
        then save_ticket (add_dependency fs id d).1 { t with deps := t.deps.erase d }
        else (((add_dependency fs id d).1, none) : FS × Option Err)).1 id = Except.ok t
      by_cases hd : d ∈ t.deps
      · rw [if_pos hd, load_ticket_save]
        exact hl
      · rw [if_neg hd]
        exact hl
  rw [h2, h1]

/-- C7 (amended): the no-write check on a transition to the current status
exists, but only in `move_ticket_to_status`: whenever the ticket loads and
already carries the target status, that function returns the store unchanged
with no error.  (The CLI-invoked `update_status` has no such check, see the
counterexample.) -/
theorem c7_move_noop_amended (fs : FS) (id : Str) (t : Ticket)
    (h : load_ticket fs id = .ok t) :
    move_ticket_to_status fs id t.status = (fs, none) := by
  simp only [move_ticket_to_status]
  rw [h]
  simp

/-- C7 witness: the no-op transition at the flat-resident open ticket. -/
theorem c7_move_noop_amended_witness :
    load_ticket fsR "t".toList = .ok tOpen ∧
    move_ticket_to_status fsR "t".toList "open".toList = (fsR, none) :=
  ⟨by decide, c7_move_noop_amended fsR "t".toList tOpen (by decide)⟩

/-- C8 (amended): for every id whose document loads, `update_status` with an
out-of-enum target fails with InvalidStatus and leaves the store unchanged;
and `validate_status` accepts every member of the status enumeration. -/
theorem c8_amended_invalid_status (fs : FS) (id s : Str) (t : Ticket)
    (hload : load_ticket fs id = .ok t) (hs : s ∉ statuses) :
    update_status fs id s = (fs, some Err.invalidStatus) ∧
      ∀ z ∈ statuses, validate_status z = none := by
  constructor
  · simp only [update_status]
    rw [hload]
    show (match validate_status s with
      | some e => ((fs, some e) : FS × Option Err)
      | none => save_ticket fs { t with status := s }) = (fs, some Err.invalidStatus)
    unfold validate_status
    rw [if_neg hs]
  · intro z hz
    unfold validate_status
    rw [if_pos hz]

/-- C8 witness: an out-of-enum transition on the loadable flat-resident
ticket, with the in-enum acceptance conjunct. -/
theorem c8_amended_invalid_status_witness :
    update_status fsR "t".toList "bogus".toList = (fsR, some Err.invalidStatus) ∧
      ∀ z ∈ statuses, validate_status z = none :=
  c8_amended_invalid_status fsR "t".toList "bogus".toList tOpen (by decide) (by decide)

/-- C9: whenever the ticket loads, `add_note` saves exactly the loaded ticket
with one note — the given timestamp and content — appended at the end of the
notes sequence (created when absent); every other field is untouched. -/
theorem c9_append_note (fs : FS) (id c : Str) (now : Nat) (t : Ticket)
    (h : load_ticket fs id = .ok t) :
    add_note fs id c now
      = save_ticket fs { t with notes := some (t.notes.getD [] ++ [⟨now, c⟩]) } := by
  simp only [add_note]
  rw [h]
  cases hn : t.notes with
  | none => simp [hn]
  | some l => simp [hn]

/-- C9 witness: adding a note to the flat-resident ticket, whose notes field
is absent, saves it with the singleton notes sequence. -/
theorem c9_append_note_witness :
    add_note fsR "t".toList "note text".toList 9
      = save_ticket fsR { tOpen with notes := some [⟨9, "note text".toList⟩] } :=
  c9_append_note fsR "t".toList "note text".toList 9 tOpen (by decide)

/-- C10: when no root file shadows the `open` directory name and no directory
sits at the target file path, `create_ticket` succeeds and persists, at
`open/<id>.md`, the encoded document of a ticket whose title is the given
title verbatim (no validation — the empty title included) and whose status is
`open`. -/
theorem c10_create_title_verbatim (fs : FS) (proj cat : Option Str) (id : Str)
    (now : Nat) (title : Str) (o : CreateOptions)
    (h1 : fileExists fs ["open".toList] = false)
    (h2 : dirExists fs ["open".toList, id ++ ".md".toList] = false) :
    ∃ t : Ticket, t.title = title ∧ t.status = "open".toList ∧ t.id = id ∧
      create_ticket fs proj cat id now title o
        = (writeRaw (ensure_status_directories fs) ["open".toList, id ++ ".md".toList]
            (encodeDoc t), none) ∧
      readFile (create_ticket fs proj cat id now title o).1
        ["open".toList, id ++ ".md".toList] = some (encodeDoc t) := by
  have key : ∀ t : Ticket, t.status = "open".toList → t.id = id →
      save_ticket fs t = (writeRaw (ensure_status_directories fs)
        ["open".toList, id ++ ".md".toList] (encodeDoc t), none) ∧
      readFile (save_ticket fs t).1 ["open".toList, id ++ ".md".toList]
        = some (encodeDoc t) := by
    intro t hst hid
    have hs1 : save_ticket fs t = (writeRaw (ensure_status_directories fs)
        [t.status, t.id ++ ".md".toList] (encodeDoc t), none) := by
      apply save_ticket_success
      · rw [hst]
        exact h1
      · rw [hst]
        decide
      · rw [hst, hid]
        exact h2
    rw [hst, hid] at hs1
    refine ⟨hs1, ?_⟩
    rw [hs1]
    exact readFile_writeRaw_self _ _ _
  refine ⟨{ id := id, title := title, status := "open".toList, deps := [],
            links := [], created := now, issue_type := o.issue_type,
            priority := o.priority, description := o.description,
            design := o.design, acceptance := o.acceptance,
            assignee := o.assignee, external_ref := o.external_ref,
            parent := o.parent, project := proj, category := cat,
            notes := none }, rfl, rfl, rfl, ?_, ?_⟩
  · simp only [create_ticket]
    exact (key _ rfl rfl).1
  · simp only [create_ticket]
    exact (key _ rfl rfl).2

/-- C10 witness: creating with the empty title on the bare status-directory
store satisfies the side conditions and persists the document under
`open/x-1.md`. -/
theorem c10_create_title_verbatim_witness :
    fileExists dirs7 ["open".toList] = false ∧
    (∃ t : Ticket, t.title = [] ∧ t.status = "open".toList ∧ t.id = "x-1".toList ∧
      create_ticket dirs7 none none "x-1".toList 3 [] optsPlain
        = (writeRaw (ensure_status_directories dirs7)
            ["open".toList, "x-1".toList ++ ".md".toList]
            (encodeDoc t), none) ∧
      readFile (create_ticket dirs7 none none "x-1".toList 3 [] optsPlain).1
        ["open".toList, "x-1".toList ++ ".md".toList] = some (encodeDoc t)) :=
  ⟨by decide,
    c10_create_title_verbatim dirs7 none none "x-1".toList 3 [] optsPlain
      (by decide) (by decide)⟩

end Tkr
